import Mathlib

/-! Verification of headerblock.

A shallow embedding of the Traefik plugin `headerblock` (`headerblock.go`) and the
properties of its request filter.

Conventions of the embedding:

* a Go `string` is a Lean `String`; a Go slice is a `List`, and the nil slice is `[]`;
* a Go pointer that may be nil (`*regexp.Regexp`) is an `Option`;
* a `byte` is a `Nat` below 256;
* the Go map `http.Header` is the list of its entries, in the order in which the
  `range` loop of `ServeHTTP` visits them (Go leaves that order unspecified, so the
  theorems quantify over every list);
* calls that leave the function (`log.Printf`, `rw.WriteHeader`, `c.next.ServeHTTP`)
  are recorded, in program order, as a list of `Effect`s;
* the standard library is not part of the repository: `regexp.Compile` and the text
  parsers of package `net` are parameters of the embedding (`Net`, `Compile`), while the
  byte-level operations of `net` (`To4`, `CIDRMask`, `Contains`) are transcribed.
-/

namespace headerblock

/-! ## Standard library: regexp -/

/-- Compiled regular expression (`*regexp.Regexp`), seen through the only method the
plugin calls: `MatchString` reports whether the text contains a match of the pattern. -/
structure Regexp where
  MatchString : String → Bool

/-! ## Standard library: net -/

/-- Address bytes, `net.IP` (`[]byte`): 4 or 16 bytes when valid, `[]` for nil. -/
abbrev IP := List Nat

/-- Mask bytes, `net.IPMask`. -/
abbrev IPMask := List Nat

/-- Network `net.IPNet`: a network number and a mask. -/
structure IPNet where
  IP : IP
  Mask : IPMask
deriving DecidableEq, Repr

/-- Length of an IPv4 address in bytes, `net.IPv4len`. -/
def IPv4len : Nat := 4

/-- Length of an IPv6 address in bytes, `net.IPv6len`. -/
def IPv6len : Nat := 16

/-- Helper `isZeros` of package net: every byte is zero. -/
def isZeros (p : IP) : Bool :=
  p.all (fun b => b == 0)

/-- Method `IP.To4`: the 4-byte form of an IPv4 address (given in 4 bytes, or in 16
bytes as an IPv4-mapped IPv6 address), and nil for anything else. -/
def IP.To4 (ip : IP) : IP :=
  if ip.length = IPv4len then ip
  else if ip.length = IPv6len ∧ isZeros (ip.take 10) = true ∧ ip.getD 10 0 = 0xff
      ∧ ip.getD 11 0 = 0xff then ip.drop 12
  else []

/-- The loop of `net.CIDRMask` filling the `l` remaining bytes of the mask when `n` one
bits are still to be written: a full byte while `n ≥ 8`, then `^byte(0xff >> n)`. -/
def maskBytes : Nat → Nat → IPMask
  | 0, _ => []
  | l + 1, n =>
    if n ≥ 8 then 0xff :: maskBytes l (n - 8)
    else (0xff - (0xff >>> n)) :: maskBytes l 0

/-- Function `net.CIDRMask ones bits`: the mask of `bits` bits whose first `ones` bits
are set; nil when `bits` is neither 32 nor 128 or `ones` is out of range. -/
def CIDRMask (ones bits : Nat) : IPMask :=
  if bits ≠ 8 * IPv4len ∧ bits ≠ 8 * IPv6len then []
  else if ones > bits then []
  else maskBytes (bits / 8) ones

/-- Helper `networkNumberAndMask` of package net: the network number and mask in
matching widths, and a pair of nils when the network is malformed. -/
def networkNumberAndMask (n : IPNet) : IP × IPMask :=
  if n.IP.To4 = [] ∧ n.IP.length ≠ IPv6len then ([], [])
  else
    let ip := if n.IP.To4 = [] then n.IP else n.IP.To4
    if n.Mask.length = IPv4len then
      if ip.length ≠ IPv4len then ([], []) else (ip, n.Mask)
    else if n.Mask.length = IPv6len then
      if ip.length = IPv4len then (ip, n.Mask.drop 12) else (ip, n.Mask)
    else ([], [])

/-- Method `IPNet.Contains`: whether the network includes the address. An address of
a different width than the network number (in particular the nil address against a
well-formed network) is not included. -/
def IPNet.Contains (n : IPNet) (ip : headerblock.IP) : Bool :=
  let nn := (networkNumberAndMask n).1
  let m := (networkNumberAndMask n).2
  let ip := if ip.To4 = [] then ip else ip.To4
  if ip.length ≠ nn.length then false
  else (List.range ip.length).all (fun i =>
    (nn.getD i 0) &&& (m.getD i 0) == (ip.getD i 0) &&& (m.getD i 0))

/-- Text parsers of package net that the plugin calls. They belong to the standard
library, not to the repository, and are parameters of the embedding. -/
structure Net where
  /-- Function `net.SplitHostPort`: host and port, or `none` when it returns an error. -/
  SplitHostPort : String → Option (String × String)
  /-- Function `net.ParseIP`: the parsed address, or nil (`[]`). -/
  ParseIP : String → IP
  /-- Function `net.ParseCIDR`: the address and network, or `none` when it returns an error. -/
  ParseCIDR : String → Option (IP × IPNet)

/-! ## Data model of the plugin -/

/-- Entry of the plugin configuration, `HeaderConfig`. -/
structure HeaderConfig where
  Name : String
  Value : String
deriving DecidableEq, Repr

/-- The plugin configuration, `Config`. -/
structure Config where
  RequestHeaders : List HeaderConfig
  WhitelistRequestHeaders : List HeaderConfig
  AllowedIPs : List String
  Log : Bool
deriving DecidableEq, Repr

/-- Compiled rule, `rule`: an optional name pattern and an optional value pattern. -/
structure rule where
  name : Option Regexp
  value : Option Regexp

/-- The plugin, `headerBlock`. The field `next` (the wrapped handler) is not stored:
its invocation is recorded as `Effect.next`. -/
structure headerBlock where
  requestHeaderRules : List rule
  whitelistRequestRules : List rule
  allowedIPNets : List IPNet
  log : Bool

/-- The part of `*http.Request` that `ServeHTTP` reads: `URL` stands for
`req.URL.String()` and `Header` lists the entries of the header map. -/
structure Request where
  URL : String
  RemoteAddr : String
  Header : List (String × List String)
deriving DecidableEq, Repr

/-- Status code `http.StatusForbidden`. -/
def StatusForbidden : Nat := 403

/-- Lines written with `log.Printf`, one constructor per format string. -/
inductive LogLine where
  /-- Format "headerblock: invalid allowedIP entry skipped: %q". -/
  | invalidAllowedIP (ip : String)
  /-- Format "%s: access denied - IP not allowed: %s". -/
  | ipNotAllowed (url : String) (clientIP : IP)
  /-- Format "%s: access allowed - whitelisted header %s". -/
  | whitelistedHeader (url : String) (name : String)
  /-- Format "%s: access denied - blocked header %s". -/
  | blockedHeader (url : String) (name : String)
deriving DecidableEq, Repr

/-- What `ServeHTTP` does to the outside, in program order. -/
inductive Effect where
  /-- Call of `log.Printf`. -/
  | log (line : LogLine)
  /-- Call of `rw.WriteHeader statusCode`. -/
  | WriteHeader (statusCode : Nat)
  /-- Call of `c.next.ServeHTTP rw req`, with the request it is handed. -/
  | next (req : Request)
deriving DecidableEq, Repr

/-- Guarded log call, `if c.log then log.Printf ...`. -/
def logIf (enabled : Bool) (line : LogLine) : List Effect :=
  if enabled then [Effect.log line] else []

/-! ## Rule matching -/

/-- The loop `for _, value := range values` that returns true at the first value
matching the pattern (shared by `applyRule` and `isWhitelisted`). -/
def matchesAnyValue (re : Regexp) : List String → Bool
  | [] => false
  | value :: rest => if re.MatchString value then true else matchesAnyValue re rest

/-- Function `applyRule` (headerblock.go, lines 190-202). -/
def applyRule (r : rule) (name : String) (values : List String) : Bool :=
  let nameMatch : Bool :=
    match r.name with
    | some re => re.MatchString name
    | none => false
  match r.value with
  | none => if nameMatch then true else false
  | some valueRe =>
    if nameMatch || r.name.isNone then
      if matchesAnyValue valueRe values then true else false
    else false

/-- Function `isWhitelisted` (headerblock.go, lines 119-136). -/
def isWhitelisted (name : String) (values : List String) : List rule → Bool
  | [] => false
  | r :: whitelist =>
    let skip : Bool :=
      match r.name with
      | some re => !re.MatchString name
      | none => false
    if skip then isWhitelisted name values whitelist
    else
      match r.value with
      | none => true
      | some valueRe =>
        if matchesAnyValue valueRe values then true
        else isWhitelisted name values whitelist

/-! ## The request filter -/

/-- Lines 141-146 of `ServeHTTP`: the client address, from the remote address with
its port stripped, or from the whole remote address when it has no port. -/
def clientIP (N : Net) (req : Request) : IP :=
  let host :=
    match N.SplitHostPort req.RemoteAddr with
    | some hp => hp.1
    | none => req.RemoteAddr
  N.ParseIP host

/-- Lines 147-154 of `ServeHTTP`: the loop over the allowed networks, which sets
`allowed` and breaks at the first network containing the address. -/
def ipAllowed (ip : IP) : List IPNet → Bool
  | [] => false
  | n :: rest => if n.Contains ip then true else ipAllowed ip rest

/-- Lines 167-184 of `ServeHTTP`: the loop over the block rules for one header. The
result is the effects and whether the function has returned. -/
def blockRulesLoop (c : headerBlock) (req : Request) (name : String)
    (values : List String) : List rule → List Effect × Bool
  | [] => ([], false)
  | blockRule :: rest =>
    if applyRule blockRule name values then
      if isWhitelisted name values c.whitelistRequestRules then
        let r := blockRulesLoop c req name values rest
        (logIf c.log (LogLine.whitelistedHeader req.URL name) ++ r.1, r.2)
      else
        (logIf c.log (LogLine.blockedHeader req.URL name)
          ++ [Effect.WriteHeader StatusForbidden], true)
    else blockRulesLoop c req name values rest

/-- Lines 166-185 of `ServeHTTP`: the loop over the entries of the header map. The
result is the effects and whether the function has returned. -/
def headersLoop (c : headerBlock) (req : Request) :
    List (String × List String) → List Effect × Bool
  | [] => ([], false)
  | (name, values) :: rest =>
    let r := blockRulesLoop c req name values c.requestHeaderRules
    if r.2 then r
    else
      let r2 := headersLoop c req rest
      (r.1 ++ r2.1, r2.2)

/-- Lines 139-163 of `ServeHTTP`: the IP allowlist step, skipped when the allowlist is
empty. The result is the effects and whether the function has returned. -/
def ipStep (N : Net) (c : headerBlock) (req : Request) : List Effect × Bool :=
  if c.allowedIPNets.length > 0 then
    let allowed := ipAllowed (clientIP N req) c.allowedIPNets
    if !allowed then
      (logIf c.log (LogLine.ipNotAllowed req.URL (clientIP N req))
        ++ [Effect.WriteHeader StatusForbidden], true)
    else ([], false)
  else ([], false)

/-- Method `headerBlock.ServeHTTP` (headerblock.go, lines 138-188): the effects of
serving one request. The IP step runs first; unless it has returned, the loop over the
headers runs; unless that has returned, the next handler is invoked with the request. -/
def ServeHTTP (N : Net) (c : headerBlock) (req : Request) : List Effect :=
  let ip := ipStep N c req
  if ip.2 then ip.1
  else
    let r := headersLoop c req req.Header
    if r.2 then ip.1 ++ r.1
    else ip.1 ++ r.1 ++ [Effect.next req]

/-! ## Construction of the plugin -/

/-- Function `CreateConfig` (headerblock.go, lines 33-37): every list nil, logging off. -/
def CreateConfig : Config :=
  ⟨[], [], [], false⟩

/-- Function `strings.Split s ","` on the characters of `s`: the parts between the
commas, one more than there are commas. -/
def splitComma : List Char → List (List Char)
  | [] => [[]]
  | c :: cs =>
    if c = ',' then [] :: splitComma cs
    else
      match splitComma cs with
      | [] => [[c]]
      | part :: parts => (c :: part) :: parts

/-- Function `unicode.IsSpace`: the Latin-1 spaces and the code points with the
Unicode property White_Space. -/
def isSpace (c : Char) : Bool :=
  let r := c.toNat
  r = 0x09 || r = 0x0a || r = 0x0b || r = 0x0c || r = 0x0d || r = 0x20 || r = 0x85
    || r = 0xa0 || r = 0x1680 || (0x2000 ≤ r && r ≤ 0x200a) || r = 0x2028 || r = 0x2029
    || r = 0x202f || r = 0x205f || r = 0x3000

/-- Function `strings.TrimSpace` on the characters of a string: leading and trailing
white space removed. -/
def trimSpace (s : List Char) : List Char :=
  ((s.dropWhile isSpace).reverse.dropWhile isSpace).reverse

/-- Lines 56-84 of `parseAllowedIPs`: the body of the inner loop for one part, giving
the networks it appends and the lines it logs. -/
def parsePart (N : Net) (logEnabled : Bool) (part : List Char) :
    List IPNet × List LogLine :=
  let ip := String.mk (trimSpace part)
  if ip = "" then ([], [])
  else
    match N.ParseCIDR ip with
    | some cidr => ([cidr.2], [])
    | none =>
      let parsedIP := N.ParseIP ip
      if parsedIP ≠ [] then
        let bits := if parsedIP.To4 ≠ [] then 32 else 128
        ([⟨parsedIP, CIDRMask bits bits⟩], [])
      else ([], if logEnabled then [LogLine.invalidAllowedIP ip] else [])

/-- Lines 55-85 of `parseAllowedIPs`: the inner loop over the parts of one entry. -/
def parseParts (N : Net) (logEnabled : Bool) : List (List Char) → List IPNet × List LogLine
  | [] => ([], [])
  | part :: parts =>
    let r := parsePart N logEnabled part
    let rs := parseParts N logEnabled parts
    (r.1 ++ rs.1, r.2 ++ rs.2)

/-- Function `parseAllowedIPs` (headerblock.go, lines 48-89): the networks compiled
from the raw entries, and the lines logged on the way. -/
def parseAllowedIPs (N : Net) (raw : List String) (logEnabled : Bool) :
    List IPNet × List LogLine :=
  match raw with
  | [] => ([], [])
  | entry :: rest =>
    let r := parseParts N logEnabled (splitComma entry.toList)
    let rs := parseAllowedIPs N rest logEnabled
    (r.1 ++ rs.1, r.2 ++ rs.2)

/-- A Go panic raised during construction. -/
inductive Panic where
  /-- Raised by `regexp.MustCompile str` when `str` is not a valid pattern. -/
  | mustCompile (str : String)
deriving DecidableEq, Repr

/-- Function `regexp.MustCompile`, over `regexp.Compile` (`none` when the pattern
does not parse): it returns the compiled pattern or panics. -/
def MustCompile (Compile : String → Option Regexp) (str : String) : Except Panic Regexp :=
  match Compile str with
  | some re => Except.ok re
  | none => Except.error (Panic.mustCompile str)

/-- Lines 108-113 of `prepareRules`: a pattern string is compiled when it is not
empty and left absent (nil) when it is. -/
def compileField (Compile : String → Option Regexp) (pattern : String) :
    Except Panic (Option Regexp) :=
  if pattern.length > 0 then
    match MustCompile Compile pattern with
    | Except.ok re => Except.ok (some re)
    | Except.error e => Except.error e
  else Except.ok none

/-- Function `prepareRules` (headerblock.go, lines 104-117). -/
def prepareRules (Compile : String → Option Regexp) :
    List HeaderConfig → Except Panic (List rule)
  | [] => Except.ok []
  | requestHeader :: rest =>
    match compileField Compile requestHeader.Name with
    | Except.error e => Except.error e
    | Except.ok name =>
      match compileField Compile requestHeader.Value with
      | Except.error e => Except.error e
      | Except.ok value =>
        match prepareRules Compile rest with
        | Except.error e => Except.error e
        | Except.ok headerRules => Except.ok (⟨name, value⟩ :: headerRules)

/-- Function `New` (headerblock.go, lines 92-102): the lines logged, and either a
panic or the returned pair of plugin and error (`none` is the nil error). -/
def New (Compile : String → Option Regexp) (N : Net) (config : Config) :
    List LogLine × Except Panic (headerBlock × Option String) :=
  let ipNets := parseAllowedIPs N config.AllowedIPs config.Log
  (ipNets.2,
    match prepareRules Compile config.RequestHeaders with
    | Except.error e => Except.error e
    | Except.ok requestHeaderRules =>
      match prepareRules Compile config.WhitelistRequestHeaders with
      | Except.error e => Except.error e
      | Except.ok whitelistRequestRules =>
        Except.ok (⟨requestHeaderRules, whitelistRequestRules, ipNets.1, config.Log⟩, none))

/-! ## A reference instance of the standard library

The theorems below hold for every `Net` and every compiled pattern. To run the plugin
on the inputs of the repository's tests, this section transcribes the IPv4 side of
package net (Go 1.22: `SplitHostPort`, `netip.parseIPv4Fields`, `dtoi`, `IP.Mask`,
`ParseCIDR`) and gives the `MatchString` of the three shapes of pattern the tests use.
-/

/-- Function `net.SplitHostPort` on the characters of `hostport`: the port starts
after the last colon, and a host in brackets must end right before that colon. -/
def splitHostPort (hostport : List Char) : Option (List Char × List Char) :=
  if ':' ∉ hostport then none
  else
    let i := hostport.length - 1 - hostport.reverse.indexOf ':'
    let port := hostport.drop (i + 1)
    if hostport.head? = some '[' then
      if ']' ∉ hostport then none
      else
        let stop := hostport.indexOf ']'
        if stop + 1 ≠ i then none
        else if '[' ∈ hostport.drop 1 then none
        else if ']' ∈ hostport.drop (stop + 1) then none
        else some ((hostport.take stop).drop 1, port)
    else
      let host := hostport.take i
      if ':' ∈ host then none
      else if '[' ∈ hostport then none
      else if ']' ∈ hostport then none
      else some (host, port)

/-- The loop of `netip.parseIPv4Fields`: `prev` is the character before the current
one, `val` and `digLen` the value and digit count of the octet being read, `fields`
the octets already read. The result is the four octets, or `none` on an error. -/
def parseIPv4Fields (prev : Option Char) (val digLen : Nat) (fields : List Nat) :
    List Char → Option (List Nat)
  | [] => if fields.length < 3 then none else some (fields ++ [val])
  | c :: rest =>
    if '0' ≤ c ∧ c ≤ '9' then
      if digLen = 1 ∧ val = 0 then none
      else if val * 10 + (c.toNat - '0'.toNat) > 255 then none
      else parseIPv4Fields (some c) (val * 10 + (c.toNat - '0'.toNat)) (digLen + 1) fields rest
    else if c = '.' then
      if prev = none ∨ rest = [] ∨ prev = some '.' then none
      else if fields.length = 3 then none
      else parseIPv4Fields (some c) 0 0 (fields ++ [val]) rest
    else none

/-- The 12 bytes that precede an IPv4 address in its 16-byte form, `v4InV6Prefix`. -/
def v4InV6Prefix : List Nat :=
  [0, 0, 0, 0, 0, 0, 0, 0, 0, 0, 0xff, 0xff]

/-- The IPv4 branch of `netip.ParseAddr` followed by `As16`: a text with a dot is read
as dotted decimal, in which a colon or a percent sign is an error; `none` is a parse
error. Text in which a colon comes before any dot goes to the IPv6 parser in Go; it is
outside this instance, which rejects it. -/
def parseAddr4 (s : List Char) : Option IP :=
  if '.' ∈ s then
    match parseIPv4Fields none 0 0 [] s with
    | some fields => some (v4InV6Prefix ++ fields)
    | none => none
  else none

/-- Helper `dtoi` of package net restricted to its use in `ParseCIDR`: the value of a
non-empty, all-digit text that stays below 0xFFFFFF, read from the accumulator `n`. -/
def dtoi (n : Nat) (seen : Bool) : List Char → Option Nat
  | [] => if seen then some n else none
  | c :: rest =>
    if '0' ≤ c ∧ c ≤ '9' then
      if n * 10 + (c.toNat - '0'.toNat) ≥ 0xFFFFFF then none
      else dtoi (n * 10 + (c.toNat - '0'.toNat)) true rest
    else none

/-- Method `IP.Mask`: the address masked byte by byte, after bringing an IPv4 address
and an IPv4 mask to 4 bytes; nil when the widths differ. -/
def IP.Mask (ip : IP) (mask : IPMask) : IP :=
  let mask := if mask.length = IPv6len ∧ ip.length = IPv4len
      ∧ (mask.take 12).all (fun b => b == 0xff) = true then mask.drop 12 else mask
  let ip := if mask.length = IPv4len ∧ ip.length = IPv6len
      ∧ ip.take 12 = v4InV6Prefix then ip.drop 12 else ip
  if ip.length ≠ mask.length then []
  else List.zipWith (fun a b => a &&& b) ip mask

/-- Function `net.ParseCIDR` for IPv4 text `a.b.c.d/n`. -/
def parseCIDR4 (s : List Char) : Option (IP × IPNet) :=
  if '/' ∉ s then none
  else
    match parseAddr4 (s.take (s.indexOf '/')), dtoi 0 false (s.drop (s.indexOf '/' + 1)) with
    | some addr16, some n =>
      if n > 32 then none
      else some (addr16, ⟨IP.Mask addr16 (CIDRMask n 32), CIDRMask n 32⟩)
    | _, _ => none

/-- The IPv4 instance of the parsers of package net. -/
def net4 : Net where
  SplitHostPort hostport :=
    match splitHostPort hostport.toList with
    | some hp => some (String.mk hp.1, String.mk hp.2)
    | none => none
  ParseIP s := (parseAddr4 s.toList).getD []
  ParseCIDR s := parseCIDR4 s.toList

/-- Whether `p` occurs in `s` as a contiguous block. -/
def occursIn (p : List Char) : List Char → Bool
  | [] => p.isEmpty
  | c :: s => p.isPrefixOf (c :: s) || occursIn p s

/-- The compiled form of a pattern `p` without metacharacters, such as "User-Agent":
a text matches when `p` occurs in it. -/
def Regexp.literal (p : String) : Regexp :=
  ⟨fun s => occursIn p.toList s.toList⟩

/-- The compiled form of a pattern "^p.*" with `p` free of metacharacters: a text
matches when it starts with `p`. -/
def Regexp.startsWith (p : String) : Regexp :=
  ⟨fun s => p.toList.isPrefixOf s.toList⟩

/-- The compiled form of an alternation "a|b": a text matches when it matches one of
the two sides. -/
def Regexp.either (a b : Regexp) : Regexp :=
  ⟨fun s => a.MatchString s || b.MatchString s⟩

/-! ## Verdicts -/

/-- The calls on the response writer and on the next handler among the effects: the
log lines are dropped. -/
def calls (es : List Effect) : List Effect :=
  es.filter (fun e =>
    match e with
    | Effect.log _ => false
    | _ => true)

/-- The request was denied: the handler wrote status 403 and did nothing else to the
response; in particular it did not invoke the next handler. -/
def denied (es : List Effect) : Prop :=
  calls es = [Effect.WriteHeader StatusForbidden]

/-- The request was allowed: the handler invoked the next handler, once, with the
request it received, and did not write to the response itself. -/
def allowed (req : Request) (es : List Effect) : Prop :=
  calls es = [Effect.next req]

instance (es : List Effect) : Decidable (denied es) :=
  inferInstanceAs (Decidable (calls es = [Effect.WriteHeader StatusForbidden]))

instance (req : Request) (es : List Effect) : Decidable (allowed req es) :=
  inferInstanceAs (Decidable (calls es = [Effect.next req]))

/-- The condition under which the IP step denies: the allowlist is not empty and none
of its networks contains the client address. -/
def ipRejected (N : Net) (c : headerBlock) (req : Request) : Prop :=
  c.allowedIPNets ≠ [] ∧ ∀ n ∈ c.allowedIPNets, n.Contains (clientIP N req) = false

/-- The condition under which the header step denies: some header of the list matches
a block rule and is not whitelisted. -/
def headerBlocked (c : headerBlock) (headers : List (String × List String)) : Prop :=
  ∃ h ∈ headers, ∃ r ∈ c.requestHeaderRules,
    applyRule r h.1 h.2 = true ∧ isWhitelisted h.1 h.2 c.whitelistRequestRules = false

instance (c : headerBlock) (headers : List (String × List String)) :
    Decidable (headerBlocked c headers) := by
  unfold headerBlocked
  infer_instance

instance (N : Net) (c : headerBlock) (req : Request) : Decidable (ipRejected N c req) := by
  unfold ipRejected
  infer_instance

/-! ## What the plugin relies on from package net -/

/-- Value of a hexadecimal digit, as read by the inner loop of `netip.parseIPv6`. -/
def hexVal (c : Char) : Option Nat :=
  if '0' ≤ c ∧ c ≤ '9' then some (c.toNat - '0'.toNat)
  else if 'a' ≤ c ∧ c ≤ 'f' then some (c.toNat - 'a'.toNat + 10)
  else if 'A' ≤ c ∧ c ≤ 'F' then some (c.toNat - 'A'.toNat + 10)
  else none

/-- The inner loop of `netip.parseIPv6` reading one group of hexadecimal digits: `off`
digits with value `acc` have been read. The result is the number of digits, the value
and the rest of the text, or `none` when the group has more than four digits. -/
def scanHex (off acc : Nat) : List Char → Option (Nat × Nat × List Char)
  | [] => some (off, acc, [])
  | c :: rest =>
    match hexVal c with
    | none => some (off, acc, c :: rest)
    | some d =>
      if off > 3 then none
      else if acc * 16 + d > 0xffff then none
      else scanHex (off + 1) (acc * 16 + d) rest

/-- The outer loop of `netip.parseIPv6`, `for i < 16`, where `i` is the length of `ip`,
the bytes read so far, `ellipsis` the position of "::" when it has been seen and the
last argument the unread text; the first argument bounds the number of rounds (each
adds two bytes). The result is the state at the exit of the loop, or `none` on an
error. -/
def parseIPv6Loop : Nat → List Nat → Option Nat → List Char →
    Option (List Nat × Option Nat × List Char)
  | 0, ip, ellipsis, s => some (ip, ellipsis, s)
  | fuel + 1, ip, ellipsis, s =>
    if ip.length ≥ 16 then some (ip, ellipsis, s)
    else
      match scanHex 0 0 s with
      | none => none
      | some (off, acc, rest) =>
        if off = 0 then none
        else if rest.head? = some '.' then
          if ellipsis = none ∧ ip.length ≠ 12 then none
          else if ip.length + 4 > 16 then none
          else
            match parseIPv4Fields none 0 0 [] s with
            | none => none
            | some fields => some (ip ++ fields, ellipsis, [])
        else
          match rest with
          | [] => some (ip ++ [acc / 256, acc % 256], ellipsis, [])
          | c :: rest1 =>
            if c ≠ ':' then none
            else
              match rest1 with
              | [] => none
              | c2 :: rest2 =>
                if c2 = ':' then
                  if ellipsis.isSome then none
                  else if rest2 = [] then
                    some (ip ++ [acc / 256, acc % 256], some (ip.length + 2), [])
                  else
                    parseIPv6Loop fuel (ip ++ [acc / 256, acc % 256]) (some (ip.length + 2))
                      rest2
                else
                  parseIPv6Loop fuel (ip ++ [acc / 256, acc % 256]) ellipsis (c2 :: rest2)

/-- Function `netip.parseIPv6` followed by the zone check of `net.ParseIP`: the 16
bytes of an IPv6 text, with "::" expanded to zeros; `none` on a parse error and on any
text with a zone (a percent sign). -/
def parseAddr6 (s : List Char) : Option IP :=
  if '%' ∈ s then none
  else if s = [':', ':'] then some (List.replicate 16 0)
  else
    match parseIPv6Loop 9 [] (if s.take 2 = [':', ':'] then some 0 else none)
        (if s.take 2 = [':', ':'] then s.drop 2 else s) with
    | none => none
    | some (ip, ellipsis, rest) =>
      if rest ≠ [] then none
      else if ip.length < 16 then
        match ellipsis with
        | none => none
        | some k => some (ip.take k ++ List.replicate (16 - ip.length) 0 ++ ip.drop k)
      else if ellipsis.isSome then none
      else some ip

/-- Function `netip.ParseAddr` followed by `BitLen` and `As16`: the first of the
characters dot, colon and percent sign in the text selects the IPv4 parser, the IPv6
parser or an error. The result is the bit length (32 or 128) and the 16 bytes. -/
def parseAddr (s : List Char) : Option (Nat × IP) :=
  match s.find? (fun c => c = '.' || c = ':' || c = '%') with
  | some ':' =>
    match parseAddr6 s with
    | some ip => some (128, ip)
    | none => none
  | _ =>
    match parseAddr4 s with
    | some ip => some (32, ip)
    | none => none

/-- Function `net.ParseCIDR` for IPv4 and IPv6 text. -/
def parseCIDR (s : List Char) : Option (IP × IPNet) :=
  if '/' ∉ s then none
  else
    match parseAddr (s.take (s.indexOf '/')), dtoi 0 false (s.drop (s.indexOf '/' + 1)) with
    | some (bitLen, addr16), some n =>
      if n > bitLen then none
      else some (addr16, ⟨IP.Mask addr16 (CIDRMask n bitLen), CIDRMask n bitLen⟩)
    | _, _ => none

/-- The parsers of package net for IPv4 and IPv6 text. On IPv4 text they are those of
`net4`. -/
def netGo : Net where
  SplitHostPort := net4.SplitHostPort
  ParseIP s :=
    match parseAddr s.toList with
    | some a => a.2
    | none => []
  ParseCIDR s := parseCIDR s.toList

/-- The characters with a special meaning in a pattern of package regexp. -/
def metaChars : List Char :=
  ['\\', '.', '+', '*', '?', '(', ')', '|', '[', ']', '{', '}', '^', '$']

/-- Function `regexp.Compile` on the patterns without special characters: such a
pattern is valid and compiles to the search for its text. A pattern with a special
character is outside this instance, which rejects it. -/
def compileLiteral (str : String) : Option Regexp :=
  if str.toList.any (fun c => metaChars.contains c) then none
  else some (Regexp.literal str)

/-! ## The allowlist in the words of the specification -/

/-- The range that one comma-separated part stands for, following the specification:
nothing for a part that is empty once trimmed; the network of a part that parses as a
CIDR; for a part that parses as a bare IP, that address with the mask of all ones of
its width; nothing for every other part. -/
def rangeOfPart (N : Net) (part : List Char) : Option IPNet :=
  if String.mk (trimSpace part) = "" then none
  else
    match N.ParseCIDR (String.mk (trimSpace part)) with
    | some cidr => some cidr.2
    | none =>
      if N.ParseIP (String.mk (trimSpace part)) = [] then none
      else some ⟨N.ParseIP (String.mk (trimSpace part)),
        if (N.ParseIP (String.mk (trimSpace part))).To4 = [] then CIDRMask 128 128
        else CIDRMask 32 32⟩

/-- The allowlist following the specification: the ranges of the parts of the entries,
entry after entry and part after part. -/
def rangesOfEntries (N : Net) : List String → List IPNet
  | [] => []
  | entry :: rest =>
    (splitComma entry.toList).filterMap (rangeOfPart N) ++ rangesOfEntries N rest

/-! ## Lemmas on the loops -/

theorem calls_append (xs ys : List Effect) : calls (xs ++ ys) = calls xs ++ calls ys := by
  simp [calls]

theorem calls_logIf (b : Bool) (l : LogLine) : calls (logIf b l) = [] := by
  cases b <;> simp [calls, logIf]

theorem matchesAnyValue_iff (re : Regexp) (values : List String) :
    matchesAnyValue re values = true ↔ ∃ v ∈ values, re.MatchString v = true := by
  induction values with
  | nil => simp [matchesAnyValue]
  | cons v rest ih =>
    by_cases hv : re.MatchString v = true
    · simp [matchesAnyValue, hv]
    · simp [matchesAnyValue, hv, ih]

theorem ipAllowed_iff (ip : IP) (nets : List IPNet) :
    ipAllowed ip nets = true ↔ ∃ n ∈ nets, n.Contains ip = true := by
  induction nets with
  | nil => simp [ipAllowed]
  | cons n rest ih =>
    by_cases hn : n.Contains ip = true
    · simp [ipAllowed, hn]
    · simp [ipAllowed, hn, ih]

theorem blockRulesLoop_returned (c : headerBlock) (req : Request) (name : String)
    (values : List String) (rules : List rule) :
    (blockRulesLoop c req name values rules).2 = true ↔
      (isWhitelisted name values c.whitelistRequestRules = false
        ∧ ∃ r ∈ rules, applyRule r name values = true) := by
  induction rules with
  | nil => simp [blockRulesLoop]
  | cons r rest ih =>
    by_cases ha : applyRule r name values = true
    · by_cases hw : isWhitelisted name values c.whitelistRequestRules = true
      · simp [blockRulesLoop, ha, hw, ih]
      · simp [blockRulesLoop, ha, hw]
    · simp [blockRulesLoop, ha, ih]

theorem blockRulesLoop_calls (c : headerBlock) (req : Request) (name : String)
    (values : List String) (rules : List rule) :
    calls (blockRulesLoop c req name values rules).1 =
      if (blockRulesLoop c req name values rules).2 = true
      then [Effect.WriteHeader StatusForbidden] else [] := by
  induction rules with
  | nil => simp [blockRulesLoop, calls]
  | cons r rest ih =>
    by_cases ha : applyRule r name values = true
    · by_cases hw : isWhitelisted name values c.whitelistRequestRules = true
      · simp [blockRulesLoop, ha, hw, calls_append, calls_logIf, ih]
      · simp [blockRulesLoop, ha, hw, calls_append, calls_logIf]
        simp [calls]
    · simp [blockRulesLoop, ha, ih]

theorem headersLoop_returned (c : headerBlock) (req : Request)
    (headers : List (String × List String)) :
    (headersLoop c req headers).2 = true ↔ headerBlocked c headers := by
  induction headers with
  | nil => simp [headersLoop, headerBlocked]
  | cons h rest ih =>
    obtain ⟨name, values⟩ := h
    have hb := blockRulesLoop_returned c req name values c.requestHeaderRules
    by_cases h2 : (blockRulesLoop c req name values c.requestHeaderRules).2 = true
    · have h3 := hb.mp h2
      simp only [headersLoop, h2, if_true, true_iff]
      obtain ⟨hw, r, hr, ha⟩ := h3
      exact ⟨(name, values), List.mem_cons_self _ _, r, hr, ha, hw⟩
    · simp only [headersLoop, h2]
      simp only [Bool.false_eq_true, if_false, ih]
      constructor
      · rintro ⟨h, hh, r, hr, ha, hw⟩
        exact ⟨h, List.mem_cons_of_mem _ hh, r, hr, ha, hw⟩
      · rintro ⟨h, hh, r, hr, ha, hw⟩
        rcases List.mem_cons.mp hh with rfl | hh
        · exact absurd (hb.mpr ⟨hw, r, hr, ha⟩) h2
        · exact ⟨h, hh, r, hr, ha, hw⟩

theorem headersLoop_calls (c : headerBlock) (req : Request)
    (headers : List (String × List String)) :
    calls (headersLoop c req headers).1 =
      if (headersLoop c req headers).2 = true
      then [Effect.WriteHeader StatusForbidden] else [] := by
  induction headers with
  | nil => simp [headersLoop, calls]
  | cons h rest ih =>
    obtain ⟨name, values⟩ := h
    have hc := blockRulesLoop_calls c req name values c.requestHeaderRules
    by_cases h2 : (blockRulesLoop c req name values c.requestHeaderRules).2 = true
    · simp only [headersLoop, h2, if_true]
      simpa [h2] using hc
    · simp only [headersLoop, h2, Bool.false_eq_true, if_false, calls_append, ih]
      simp [hc, h2]

theorem ipStep_returned (N : Net) (c : headerBlock) (req : Request) :
    (ipStep N c req).2 = true ↔ ipRejected N c req := by
  unfold ipStep ipRejected
  by_cases hlen : c.allowedIPNets.length > 0
  · have hne : c.allowedIPNets ≠ [] := List.length_pos.mp hlen
    cases hA : ipAllowed (clientIP N req) c.allowedIPNets with
    | false =>
      have hall : ∀ n ∈ c.allowedIPNets, n.Contains (clientIP N req) = false := by
        intro n hn
        cases hcn : n.Contains (clientIP N req) with
        | false => rfl
        | true =>
          have := (ipAllowed_iff _ _).mpr ⟨n, hn, hcn⟩
          rw [hA] at this
          cases this
      simp [hlen, hne]
      exact hall
    | true =>
      obtain ⟨n, hn, hcn⟩ := (ipAllowed_iff _ _).mp hA
      have hno : ¬ ∀ n ∈ c.allowedIPNets, n.Contains (clientIP N req) = false := by
        intro hall
        rw [hall n hn] at hcn
        cases hcn
      simp [hlen, hno]
  · have hnil : c.allowedIPNets = [] := by
      cases hl : c.allowedIPNets with
      | nil => rfl
      | cons a l => simp [hl] at hlen
    simp [hnil]

theorem ipStep_calls (N : Net) (c : headerBlock) (req : Request) :
    calls (ipStep N c req).1 =
      if (ipStep N c req).2 = true then [Effect.WriteHeader StatusForbidden] else [] := by
  unfold ipStep
  by_cases hlen : c.allowedIPNets.length > 0
  · cases hA : ipAllowed (clientIP N req) c.allowedIPNets with
    | false =>
      simp only [hlen, if_true, Bool.not_false, calls_append, calls_logIf]
      simp [calls]
    | true => simp [hlen, calls]
  · simp [hlen, calls]

theorem ServeHTTP_calls (N : Net) (c : headerBlock) (req : Request) :
    calls (ServeHTTP N c req) =
      if ipRejected N c req ∨ headerBlocked c req.Header
      then [Effect.WriteHeader StatusForbidden] else [Effect.next req] := by
  have hr := headersLoop_returned c req req.Header
  have hc := headersLoop_calls c req req.Header
  have hi := ipStep_returned N c req
  have hic := ipStep_calls N c req
  unfold ServeHTTP
  by_cases h1 : (ipStep N c req).2 = true
  · rw [if_pos (Or.inl (hi.mp h1))]
    simp only [h1, if_true]
    simpa [h1] using hic
  · have hip : ¬ ipRejected N c req := fun h => h1 (hi.mpr h)
    have hic0 : calls (ipStep N c req).1 = [] := by simpa [h1] using hic
    by_cases h2 : (headersLoop c req req.Header).2 = true
    · rw [if_pos (Or.inr (hr.mp h2))]
      simp only [h1, h2, Bool.false_eq_true, if_false, if_true, calls_append, hic0]
      simpa [h2] using hc
    · have hb : ¬ headerBlocked c req.Header := fun h => h2 (hr.mpr h)
      have hno : ¬ (ipRejected N c req ∨ headerBlocked c req.Header) := by tauto
      have hc0 : calls (headersLoop c req req.Header).1 = [] := by simpa [h2] using hc
      rw [if_neg hno]
      simp only [h1, h2, Bool.false_eq_true, if_false, calls_append, hic0, hc0]
      simp [calls]

theorem denied_iff (N : Net) (c : headerBlock) (req : Request) :
    denied (ServeHTTP N c req) ↔ (ipRejected N c req ∨ headerBlocked c req.Header) := by
  unfold denied
  rw [ServeHTTP_calls]
  by_cases h : ipRejected N c req ∨ headerBlocked c req.Header
  · simp [h]
  · simp [h]

theorem allowed_iff (N : Net) (c : headerBlock) (req : Request) :
    allowed req (ServeHTTP N c req) ↔ ¬ (ipRejected N c req ∨ headerBlocked c req.Header) := by
  unfold allowed
  rw [ServeHTTP_calls]
  by_cases h : ipRejected N c req ∨ headerBlocked c req.Header
  · simp [h]
  · simp [h]

/-! ## Properties of the request filter -/

/-- C1. Decision of `ServeHTTP`: for every plugin (block rules, whitelist rules,
allowlist) and every request, the request is denied (status 403 written, next handler
not invoked) exactly when (1) the allowlist is not empty and none of its networks
contains the client address, or (2) some header of the request and some block rule are
such that `applyRule` is true and `isWhitelisted` is false; and the request is handed to
the next handler exactly when neither holds. The client address is what `net.ParseIP`
makes of the host: the host part returned by `net.SplitHostPort` on the remote address
when it succeeds, and the whole remote address when it fails. -/
theorem C1_ServeHTTP_decision (N : Net) (c : headerBlock) (req : Request) :
    (denied (ServeHTTP N c req) ↔
      ((c.allowedIPNets ≠ []
          ∧ ∀ n ∈ c.allowedIPNets,
              n.Contains (N.ParseIP
                (match N.SplitHostPort req.RemoteAddr with
                  | some hostPort => hostPort.1
                  | none => req.RemoteAddr)) = false)
        ∨ ∃ h ∈ req.Header, ∃ r ∈ c.requestHeaderRules,
            applyRule r h.1 h.2 = true
              ∧ isWhitelisted h.1 h.2 c.whitelistRequestRules = false))
    ∧ (allowed req (ServeHTTP N c req) ↔
      ¬ ((c.allowedIPNets ≠ []
          ∧ ∀ n ∈ c.allowedIPNets,
              n.Contains (N.ParseIP
                (match N.SplitHostPort req.RemoteAddr with
                  | some hostPort => hostPort.1
                  | none => req.RemoteAddr)) = false)
        ∨ ∃ h ∈ req.Header, ∃ r ∈ c.requestHeaderRules,
            applyRule r h.1 h.2 = true
              ∧ isWhitelisted h.1 h.2 c.whitelistRequestRules = false)) := by
  have hip : clientIP N req
      = N.ParseIP
          (match N.SplitHostPort req.RemoteAddr with
            | some hostPort => hostPort.1
            | none => req.RemoteAddr) := by
    unfold clientIP
    cases N.SplitHostPort req.RemoteAddr <;> rfl
  have hd := denied_iff N c req
  have ha := allowed_iff N c req
  unfold ipRejected headerBlocked at hd ha
  rw [hip] at hd ha
  exact ⟨hd, ha⟩

/-- C1 on the allowlist ["10.0.0.0/8"] with the block rule {name: "X-Test"}: a client
inside the range is allowed when its request carries no blocked header, whether the
remote address has a port ("10.1.1.1:1234", the port is stripped) or not ("10.1.1.1",
taken as it is); a client outside the range ("11.1.1.1:1234") is denied by the IP
step, and a client inside the range is denied by the header step when it sends
X-Test. -/
theorem C1_ServeHTTP_decision_witness :
    allowed ⟨"/test", "10.1.1.1:1234", [("Accept", ["text/html"])]⟩
      (ServeHTTP net4
        ⟨[⟨some (Regexp.literal "X-Test"), none⟩], [], [⟨[10, 0, 0, 0], [255, 0, 0, 0]⟩], false⟩
        ⟨"/test", "10.1.1.1:1234", [("Accept", ["text/html"])]⟩)
    ∧ allowed ⟨"/test", "10.1.1.1", [("Accept", ["text/html"])]⟩
      (ServeHTTP net4
        ⟨[⟨some (Regexp.literal "X-Test"), none⟩], [], [⟨[10, 0, 0, 0], [255, 0, 0, 0]⟩], false⟩
        ⟨"/test", "10.1.1.1", [("Accept", ["text/html"])]⟩)
    ∧ denied (ServeHTTP net4
        ⟨[⟨some (Regexp.literal "X-Test"), none⟩], [], [⟨[10, 0, 0, 0], [255, 0, 0, 0]⟩], false⟩
        ⟨"/test", "11.1.1.1:1234", [("Accept", ["text/html"])]⟩)
    ∧ denied (ServeHTTP net4
        ⟨[⟨some (Regexp.literal "X-Test"), none⟩], [], [⟨[10, 0, 0, 0], [255, 0, 0, 0]⟩], false⟩
        ⟨"/test", "10.1.1.1:1234", [("Accept", ["text/html"]), ("X-Test", ["blocked"])]⟩) :=
  ⟨(C1_ServeHTTP_decision net4
      ⟨[⟨some (Regexp.literal "X-Test"), none⟩], [], [⟨[10, 0, 0, 0], [255, 0, 0, 0]⟩], false⟩
      ⟨"/test", "10.1.1.1:1234", [("Accept", ["text/html"])]⟩).2.mpr (by decide),
    (C1_ServeHTTP_decision net4
      ⟨[⟨some (Regexp.literal "X-Test"), none⟩], [], [⟨[10, 0, 0, 0], [255, 0, 0, 0]⟩], false⟩
      ⟨"/test", "10.1.1.1", [("Accept", ["text/html"])]⟩).2.mpr (by decide),
    (C1_ServeHTTP_decision net4
      ⟨[⟨some (Regexp.literal "X-Test"), none⟩], [], [⟨[10, 0, 0, 0], [255, 0, 0, 0]⟩], false⟩
      ⟨"/test", "11.1.1.1:1234", [("Accept", ["text/html"])]⟩).1.mpr (by decide),
    (C1_ServeHTTP_decision net4
      ⟨[⟨some (Regexp.literal "X-Test"), none⟩], [], [⟨[10, 0, 0, 0], [255, 0, 0, 0]⟩], false⟩
      ⟨"/test", "10.1.1.1:1234", [("Accept", ["text/html"]), ("X-Test", ["blocked"])]⟩).1.mpr
      (by decide)⟩

/-- C3. Match semantics of `applyRule`: it returns true exactly when (a) the rule has a
name pattern that matches the name and has no value pattern, or (b) the rule has a
value pattern, its name pattern is absent or matches the name, and at least one value
matches the value pattern. In particular a rule with neither pattern never matches, and
a rule whose name pattern is present and does not match the name never matches, whatever
its value pattern and the values. -/
theorem C3_applyRule_semantics (r : rule) (name : String) (values : List String) :
    (applyRule r name values = true ↔
      (((∃ nameRe, r.name = some nameRe ∧ nameRe.MatchString name = true) ∧ r.value = none)
        ∨ ∃ valueRe, r.value = some valueRe
            ∧ (r.name = none ∨ ∃ nameRe, r.name = some nameRe ∧ nameRe.MatchString name = true)
            ∧ ∃ v ∈ values, valueRe.MatchString v = true))
    ∧ applyRule ⟨none, none⟩ name values = false
    ∧ ∀ (nameRe : Regexp) (value : Option Regexp),
        nameRe.MatchString name = false → applyRule ⟨some nameRe, value⟩ name values = false := by
  refine ⟨?_, by simp [applyRule], ?_⟩
  · obtain ⟨rn, rv⟩ := r
    cases rn with
    | none =>
      cases rv with
      | none => simp [applyRule]
      | some V => simp [applyRule, matchesAnyValue_iff]
    | some Nm =>
      cases rv with
      | none => simp [applyRule]
      | some V =>
        by_cases hN : Nm.MatchString name = true
        · simp [applyRule, matchesAnyValue_iff, hN]
        · simp [applyRule, matchesAnyValue_iff, hN]
  · intro nameRe value hN
    cases value with
    | none => simp [applyRule, hN]
    | some V => simp [applyRule, hN]

/-- C4. Whitelist resolution of `isWhitelisted`: it returns true exactly when some
whitelist rule has its name pattern absent or matching the header name, and its value
pattern absent or matching at least one of the header values; with an empty whitelist
it is false. -/
theorem C4_isWhitelisted_semantics (name : String) (values : List String)
    (whitelist : List rule) :
    (isWhitelisted name values whitelist = true ↔
      ∃ r ∈ whitelist,
        (r.name = none ∨ ∃ nameRe, r.name = some nameRe ∧ nameRe.MatchString name = true)
          ∧ (r.value = none
            ∨ ∃ valueRe, r.value = some valueRe ∧ ∃ v ∈ values, valueRe.MatchString v = true))
    ∧ isWhitelisted name values [] = false := by
  refine ⟨?_, by simp [isWhitelisted]⟩
  induction whitelist with
  | nil => simp [isWhitelisted]
  | cons r rest ih =>
    obtain ⟨rn, rv⟩ := r
    cases rn with
    | none =>
      cases rv with
      | none => simp [isWhitelisted]
      | some V =>
        by_cases hV : matchesAnyValue V values = true
        · have hV2 := (matchesAnyValue_iff V values).mp hV
          simp [isWhitelisted, hV, hV2]
        · have hV2 : ¬ ∃ v ∈ values, V.MatchString v = true :=
            fun h => hV ((matchesAnyValue_iff V values).mpr h)
          simp [isWhitelisted, hV, hV2]
          exact ih
    | some Nm =>
      by_cases hN : Nm.MatchString name = true
      · cases rv with
        | none => simp [isWhitelisted, hN]
        | some V =>
          by_cases hV : matchesAnyValue V values = true
          · have hV2 := (matchesAnyValue_iff V values).mp hV
            simp [isWhitelisted, hN, hV, hV2]
          · have hV2 : ¬ ∃ v ∈ values, V.MatchString v = true :=
              fun h => hV ((matchesAnyValue_iff V values).mpr h)
            simp [isWhitelisted, hN, hV, hV2]
            exact ih
      · simp [isWhitelisted, hN]
        exact ih

/-- C2, the code at the input of the test `AllowedIPBypass`: block rule
{name: "X-Test"}, allowedIPs ["10.0.0.0/8"], remote address 10.1.1.1:1234 and header
X-Test: blocked. The allowlist compiles to the network 10.0.0.0/8, the client address
10.1.1.1 is inside it, and `ServeHTTP` still runs the header step and denies the
request instead of handing it to the next handler. The last part builds the plugin with
`New` from the configuration of the test, for every `regexp.Compile` under which the
pattern "X-Test" compiles to something that matches the text "X-Test". -/
theorem C2_allowlisted_client_still_blocked :
    (parseAllowedIPs net4 ["10.0.0.0/8"] false).1 = [⟨[10, 0, 0, 0], [255, 0, 0, 0]⟩]
    ∧ clientIP net4 ⟨"/test", "10.1.1.1:1234", [("X-Test", ["blocked"])]⟩
        = v4InV6Prefix ++ [10, 1, 1, 1]
    ∧ ipAllowed (v4InV6Prefix ++ [10, 1, 1, 1]) [⟨[10, 0, 0, 0], [255, 0, 0, 0]⟩] = true
    ∧ denied (ServeHTTP net4
        ⟨[⟨some (Regexp.literal "X-Test"), none⟩], [], [⟨[10, 0, 0, 0], [255, 0, 0, 0]⟩], false⟩
        ⟨"/test", "10.1.1.1:1234", [("X-Test", ["blocked"])]⟩)
    ∧ ¬ allowed ⟨"/test", "10.1.1.1:1234", [("X-Test", ["blocked"])]⟩ (ServeHTTP net4
        ⟨[⟨some (Regexp.literal "X-Test"), none⟩], [], [⟨[10, 0, 0, 0], [255, 0, 0, 0]⟩], false⟩
        ⟨"/test", "10.1.1.1:1234", [("X-Test", ["blocked"])]⟩)
    ∧ ∀ (Compile : String → Option Regexp) (re : Regexp),
        Compile "X-Test" = some re → re.MatchString "X-Test" = true →
        ∃ c : headerBlock,
          New Compile net4 ⟨[⟨"X-Test", ""⟩], [], ["10.0.0.0/8"], false⟩
              = ([], Except.ok (c, none))
            ∧ denied (ServeHTTP net4 c
                ⟨"/test", "10.1.1.1:1234", [("X-Test", ["blocked"])]⟩) := by
  refine ⟨by decide, by decide, by decide, by decide, by decide, ?_⟩
  intro Compile re hC hm
  have hp : parseAllowedIPs net4 ["10.0.0.0/8"] false
      = ([⟨[10, 0, 0, 0], [255, 0, 0, 0]⟩], []) := by decide
  have hlen : "X-Test".length > 0 := by decide
  have hlen0 : ¬ "".length > 0 := by decide
  refine ⟨⟨[⟨some re, none⟩], [], [⟨[10, 0, 0, 0], [255, 0, 0, 0]⟩], false⟩, ?_, ?_⟩
  · simp only [New, hp, prepareRules, compileField, MustCompile, hC, hlen, hlen0, if_true,
      if_false]
  · rw [denied_iff]
    right
    exact ⟨("X-Test", ["blocked"]), List.mem_singleton.mpr rfl, ⟨some re, none⟩,
      List.mem_singleton.mpr rfl, by simp [applyRule, hm], by simp [isWhitelisted]⟩

/-- C5. Whitelist override by value: with no allowlist, the single block rule
{name: N} and the single whitelist rule {name: N, value: V}, a request carrying exactly
one header (h, [v]) with N matching h is allowed when V matches v and denied when V
does not match v. -/
theorem C5_whitelist_override_by_value (N : Net) (log : Bool) (nameRe valueRe : Regexp)
    (url remoteAddr h v : String) (hN : nameRe.MatchString h = true) :
    (valueRe.MatchString v = true ↔
      allowed ⟨url, remoteAddr, [(h, [v])]⟩
        (ServeHTTP N ⟨[⟨some nameRe, none⟩], [⟨some nameRe, some valueRe⟩], [], log⟩
          ⟨url, remoteAddr, [(h, [v])]⟩))
    ∧ (valueRe.MatchString v = false ↔
      denied
        (ServeHTTP N ⟨[⟨some nameRe, none⟩], [⟨some nameRe, some valueRe⟩], [], log⟩
          ⟨url, remoteAddr, [(h, [v])]⟩)) := by
  rw [allowed_iff, denied_iff]
  by_cases hV : valueRe.MatchString v = true
  · simp [ipRejected, headerBlocked, applyRule, isWhitelisted, matchesAnyValue, hN, hV]
  · simp [ipRejected, headerBlocked, applyRule, isWhitelisted, matchesAnyValue, hN, hV]

/-- C5 on the tests `WhitelistByHeaderValue` and `WhitelistMismatch`: with block rule
{name: "Cf-Ipcountry"} and whitelist rule {name: "Cf-Ipcountry", value: "VN"}, the
request with Cf-Ipcountry: VN is allowed and the one with Cf-Ipcountry: FR is denied. -/
theorem C5_whitelist_override_by_value_witness :
    allowed ⟨"/test", "192.0.2.1:1234", [("Cf-Ipcountry", ["VN"])]⟩
      (ServeHTTP net4
        ⟨[⟨some (Regexp.literal "Cf-Ipcountry"), none⟩],
          [⟨some (Regexp.literal "Cf-Ipcountry"), some (Regexp.literal "VN")⟩], [], false⟩
        ⟨"/test", "192.0.2.1:1234", [("Cf-Ipcountry", ["VN"])]⟩)
    ∧ denied
      (ServeHTTP net4
        ⟨[⟨some (Regexp.literal "Cf-Ipcountry"), none⟩],
          [⟨some (Regexp.literal "Cf-Ipcountry"), some (Regexp.literal "VN")⟩], [], false⟩
        ⟨"/test", "192.0.2.1:1234", [("Cf-Ipcountry", ["FR"])]⟩) :=
  ⟨(C5_whitelist_override_by_value net4 false (Regexp.literal "Cf-Ipcountry")
      (Regexp.literal "VN") "/test" "192.0.2.1:1234" "Cf-Ipcountry" "VN" (by decide)).1.mp
      (by decide),
    (C5_whitelist_override_by_value net4 false (Regexp.literal "Cf-Ipcountry")
      (Regexp.literal "VN") "/test" "192.0.2.1:1234" "Cf-Ipcountry" "FR" (by decide)).2.mp
      (by decide)⟩

/-- C6. Name and value gate together: with no allowlist, no whitelist rules and the
single block rule {name: N, value: V}, a request is denied exactly when it has a header
whose name matches N and one of whose values matches V, and it is allowed otherwise:
a header whose value matches V under a name that N does not match, or whose name
matches N with no value matching V, does not cause a deny. -/
theorem C6_name_and_value_gate_together (N : Net) (log : Bool) (nameRe valueRe : Regexp)
    (req : Request) :
    (denied (ServeHTTP N ⟨[⟨some nameRe, some valueRe⟩], [], [], log⟩ req) ↔
      ∃ h ∈ req.Header,
        nameRe.MatchString h.1 = true ∧ ∃ v ∈ h.2, valueRe.MatchString v = true)
    ∧ (allowed req (ServeHTTP N ⟨[⟨some nameRe, some valueRe⟩], [], [], log⟩ req) ↔
      ∀ h ∈ req.Header,
        nameRe.MatchString h.1 = false ∨ ∀ v ∈ h.2, valueRe.MatchString v = false) := by
  rw [allowed_iff, denied_iff]
  have key : ∀ h : String × List String,
      applyRule ⟨some nameRe, some valueRe⟩ h.1 h.2 = true ↔
        (nameRe.MatchString h.1 = true ∧ ∃ v ∈ h.2, valueRe.MatchString v = true) := by
    intro h
    by_cases hN : nameRe.MatchString h.1 = true
    · simp [applyRule, matchesAnyValue_iff, hN]
    · simp [applyRule, matchesAnyValue_iff, hN]
  constructor
  · simp [ipRejected, headerBlocked, isWhitelisted, key]
  · simp only [ipRejected, headerBlocked, isWhitelisted, List.mem_singleton]
    constructor
    · intro hno h hh
      by_cases hN : nameRe.MatchString h.1 = true
      · right
        intro v hv
        cases hV : valueRe.MatchString v with
        | false => rfl
        | true =>
          exact absurd (Or.inr ⟨h, hh, _, rfl, (key h).mpr ⟨hN, v, hv, hV⟩, trivial⟩) hno
      · left
        simpa using hN
    · rintro hall (⟨hne, -⟩ | ⟨h, hh, r, rfl, ha, -⟩)
      · exact hne rfl
      · obtain ⟨hN, v, hv, hV⟩ := (key h).mp ha
        rcases hall h hh with h1 | h1
        · rw [hN] at h1
          cases h1
        · rw [h1 v hv] at hV
          cases hV

/-- C6 on the tests `RegexHeaderAndValue`, `ValidUserAgent` and `BlockedUserAgent`:
{"^X-.*", "forbidden|blocked"} denies X-Custom: blocked-value, {"User-Agent", "SpamBot"}
allows User-Agent: Mozilla, and {"User-Agent", "Googlebot"} denies User-Agent:
Googlebot. -/
theorem C6_name_and_value_gate_together_witness :
    denied (ServeHTTP net4
      ⟨[⟨some (Regexp.startsWith "X-"),
          some (Regexp.either (Regexp.literal "forbidden") (Regexp.literal "blocked"))⟩],
        [], [], false⟩
      ⟨"/test", "192.0.2.1:1234", [("X-Custom", ["blocked-value"])]⟩)
    ∧ allowed ⟨"/test", "192.0.2.1:1234", [("User-Agent", ["Mozilla"])]⟩
      (ServeHTTP net4
        ⟨[⟨some (Regexp.literal "User-Agent"), some (Regexp.literal "SpamBot")⟩], [], [], false⟩
        ⟨"/test", "192.0.2.1:1234", [("User-Agent", ["Mozilla"])]⟩)
    ∧ denied (ServeHTTP net4
      ⟨[⟨some (Regexp.literal "User-Agent"), some (Regexp.literal "Googlebot")⟩], [], [], false⟩
      ⟨"/test", "192.0.2.1:1234", [("User-Agent", ["Googlebot"])]⟩) :=
  ⟨(C6_name_and_value_gate_together net4 false (Regexp.startsWith "X-")
      (Regexp.either (Regexp.literal "forbidden") (Regexp.literal "blocked"))
      ⟨"/test", "192.0.2.1:1234", [("X-Custom", ["blocked-value"])]⟩).1.mpr (by decide),
    (C6_name_and_value_gate_together net4 false (Regexp.literal "User-Agent")
      (Regexp.literal "SpamBot")
      ⟨"/test", "192.0.2.1:1234", [("User-Agent", ["Mozilla"])]⟩).2.mpr (by decide),
    (C6_name_and_value_gate_together net4 false (Regexp.literal "User-Agent")
      (Regexp.literal "Googlebot")
      ⟨"/test", "192.0.2.1:1234", [("User-Agent", ["Googlebot"])]⟩).1.mpr (by decide)⟩

/-- C7. A value-only block rule applies to every header name: with no allowlist and
no whitelist rules, when the block rules include {value: V} with no name pattern, every
request that has a header, under any name, with at least one value matching V is
denied. -/
theorem C7_value_only_rule_blocks_any_name (N : Net) (log : Bool) (rules : List rule)
    (valueRe : Regexp) (req : Request) (name : String) (values : List String) (v : String)
    (hrule : (⟨none, some valueRe⟩ : rule) ∈ rules)
    (hheader : (name, values) ∈ req.Header) (hv : v ∈ values)
    (hmatch : valueRe.MatchString v = true) :
    denied (ServeHTTP N ⟨rules, [], [], log⟩ req) := by
  rw [denied_iff]
  right
  refine ⟨(name, values), hheader, ⟨none, some valueRe⟩, hrule, ?_, by simp [isWhitelisted]⟩
  have hany : matchesAnyValue valueRe values = true :=
    (matchesAnyValue_iff valueRe values).mpr ⟨v, hv, hmatch⟩
  simp [applyRule, hany]

/-- C7 on the test `ValueOnlyRule`: the rule {value: "evil"} denies a request with
Any-Header: evil-content. -/
theorem C7_value_only_rule_blocks_any_name_witness :
    denied (ServeHTTP net4 ⟨[⟨none, some (Regexp.literal "evil")⟩], [], [], false⟩
      ⟨"/test", "192.0.2.1:1234", [("Any-Header", ["evil-content"])]⟩) :=
  C7_value_only_rule_blocks_any_name net4 false [⟨none, some (Regexp.literal "evil")⟩]
    (Regexp.literal "evil") ⟨"/test", "192.0.2.1:1234", [("Any-Header", ["evil-content"])]⟩
    "Any-Header" ["evil-content"] "evil-content"
    (List.mem_singleton.mpr rfl) (List.mem_singleton.mpr rfl) (List.mem_singleton.mpr rfl)
    (by decide)

/-- C8. A name-only block rule blocks regardless of value: with no allowlist and no
whitelist rules, when the block rules include {name: N} with no value pattern, every
request that has a header whose name matches N is denied, whatever the values of that
header, the empty list of values included. -/
theorem C8_name_only_rule_blocks_any_value (N : Net) (log : Bool) (rules : List rule)
    (nameRe : Regexp) (req : Request) (name : String) (values : List String)
    (hrule : (⟨some nameRe, none⟩ : rule) ∈ rules)
    (hheader : (name, values) ∈ req.Header)
    (hmatch : nameRe.MatchString name = true) :
    denied (ServeHTTP N ⟨rules, [], [], log⟩ req) := by
  rw [denied_iff]
  right
  refine ⟨(name, values), hheader, ⟨some nameRe, none⟩, hrule, ?_, by simp [isWhitelisted]⟩
  simp [applyRule, hmatch]

/-- C8 on the rule {name: "Cf-Ipcountry"}: it denies Cf-Ipcountry: VN, and it denies a
Cf-Ipcountry header with no value at all. -/
theorem C8_name_only_rule_blocks_any_value_witness :
    denied (ServeHTTP net4 ⟨[⟨some (Regexp.literal "Cf-Ipcountry"), none⟩], [], [], false⟩
      ⟨"/test", "192.0.2.1:1234", [("Cf-Ipcountry", ["VN"])]⟩)
    ∧ denied (ServeHTTP net4 ⟨[⟨some (Regexp.literal "Cf-Ipcountry"), none⟩], [], [], false⟩
      ⟨"/test", "192.0.2.1:1234", [("Cf-Ipcountry", [])]⟩) :=
  ⟨C8_name_only_rule_blocks_any_value net4 false [⟨some (Regexp.literal "Cf-Ipcountry"), none⟩]
      (Regexp.literal "Cf-Ipcountry") ⟨"/test", "192.0.2.1:1234", [("Cf-Ipcountry", ["VN"])]⟩
      "Cf-Ipcountry" ["VN"] (List.mem_singleton.mpr rfl) (List.mem_singleton.mpr rfl)
      (by decide),
    C8_name_only_rule_blocks_any_value net4 false [⟨some (Regexp.literal "Cf-Ipcountry"), none⟩]
      (Regexp.literal "Cf-Ipcountry") ⟨"/test", "192.0.2.1:1234", [("Cf-Ipcountry", [])]⟩
      "Cf-Ipcountry" [] (List.mem_singleton.mpr rfl) (List.mem_singleton.mpr rfl)
      (by decide)⟩

/-- C9. With no block rules and no allowlist every request is allowed: the next handler
is invoked for every header set, every remote address and every whitelist rule list.
The default configuration of `CreateConfig` is such a case: `New` logs nothing, does not
panic, and returns the plugin with no block rules, no whitelist rules and no allowlist
together with a nil error. -/
theorem C9_no_rules_no_allowlist_allows (Compile : String → Option Regexp) (N : Net)
    (whitelist : List rule) (log : Bool) (req : Request) :
    allowed req (ServeHTTP N ⟨[], whitelist, [], log⟩ req)
    ∧ (New Compile N CreateConfig).1 = []
    ∧ ∃ c : headerBlock, (New Compile N CreateConfig).2 = Except.ok (c, none)
        ∧ c.requestHeaderRules = [] ∧ c.whitelistRequestRules = [] ∧ c.allowedIPNets = []
        ∧ allowed req (ServeHTTP N c req) := by
  have h : ∀ (wl : List rule) (lg : Bool), allowed req (ServeHTTP N ⟨[], wl, [], lg⟩ req) := by
    intro wl lg
    rw [allowed_iff]
    simp [ipRejected, headerBlocked]
  refine ⟨h whitelist log, rfl, ⟨[], [], [], false⟩, rfl, rfl, rfl, rfl, h [] false⟩

/-- C10. An empty allowlist disables the IP check: for every plugin whose compiled
allowlist is empty the verdict is that of the header step alone, so two requests that
differ only in their remote address (malformed and empty ones included) receive the same
verdict. -/
theorem C10_empty_allowlist_ignores_address (N : Net) (rules whitelist : List rule)
    (log : Bool) (url : String) (header : List (String × List String))
    (addr1 addr2 : String) :
    (denied (ServeHTTP N ⟨rules, whitelist, [], log⟩ ⟨url, addr1, header⟩) ↔
      denied (ServeHTTP N ⟨rules, whitelist, [], log⟩ ⟨url, addr2, header⟩))
    ∧ (allowed ⟨url, addr1, header⟩
          (ServeHTTP N ⟨rules, whitelist, [], log⟩ ⟨url, addr1, header⟩) ↔
        allowed ⟨url, addr2, header⟩
          (ServeHTTP N ⟨rules, whitelist, [], log⟩ ⟨url, addr2, header⟩))
    ∧ (denied (ServeHTTP N ⟨rules, whitelist, [], log⟩ ⟨url, addr1, header⟩) ↔
        ∃ h ∈ header, ∃ r ∈ rules,
          applyRule r h.1 h.2 = true ∧ isWhitelisted h.1 h.2 whitelist = false) := by
  refine ⟨?_, ?_, ?_⟩
  · rw [denied_iff, denied_iff]
    simp [ipRejected, headerBlocked]
  · rw [allowed_iff, allowed_iff]
    simp [ipRejected, headerBlocked]
  · rw [denied_iff]
    simp [ipRejected, headerBlocked]

/-! ## Lemmas on package net and on the construction -/

theorem To4_length (ip : IP) : ip.To4 = [] ∨ ip.To4.length = IPv4len := by
  unfold IP.To4
  by_cases h4 : ip.length = IPv4len
  · simp [h4]
  · by_cases h16 : ip.length = IPv6len ∧ isZeros (ip.take 10) = true ∧ ip.getD 10 0 = 0xff
        ∧ ip.getD 11 0 = 0xff
    · right
      rw [if_neg h4, if_pos h16]
      simp [List.length_drop, h16.1, IPv6len, IPv4len]
    · left
      rw [if_neg h4, if_neg h16]

theorem To4_nil_of_length_ne {ip : IP} (h4 : ip.length ≠ IPv4len) (h16 : ip.length ≠ IPv6len) :
    ip.To4 = [] := by
  unfold IP.To4
  rw [if_neg h4, if_neg (fun h => h16 h.1)]

theorem Contains_nil {n : IPNet} (h : (networkNumberAndMask n).1 ≠ []) :
    n.Contains [] = false := by
  have hlen : (networkNumberAndMask n).1.length ≠ 0 := by
    intro h0
    exact h (List.length_eq_zero.mp h0)
  unfold IPNet.Contains
  have hto : IP.To4 [] = [] := by decide
  simp only [hto, if_true, List.length_nil]
  rw [if_pos (fun h0 => hlen h0.symm)]

theorem ipAllowed_nil (nets : List IPNet)
    (h : ∀ n ∈ nets, (networkNumberAndMask n).1 ≠ []) : ipAllowed [] nets = false := by
  cases hA : ipAllowed [] nets with
  | false => rfl
  | true =>
    obtain ⟨n, hn, hc⟩ := (ipAllowed_iff _ _).mp hA
    rw [Contains_nil (h n hn)] at hc
    cases hc

theorem CIDRMask_32 : CIDRMask 32 32 = [0xff, 0xff, 0xff, 0xff] := by decide

theorem CIDRMask_128 : CIDRMask 128 128 = List.replicate 16 0xff := by decide

theorem New_ok_fields {Compile : String → Option Regexp} {N : Net} {config : Config}
    {c : headerBlock} {err : Option String}
    (h : (New Compile N config).2 = Except.ok (c, err)) :
    prepareRules Compile config.RequestHeaders = Except.ok c.requestHeaderRules
      ∧ prepareRules Compile config.WhitelistRequestHeaders
          = Except.ok c.whitelistRequestRules
      ∧ c.allowedIPNets = (parseAllowedIPs N config.AllowedIPs config.Log).1
      ∧ c.log = config.Log ∧ err = none := by
  unfold New at h
  simp only at h
  cases h1 : prepareRules Compile config.RequestHeaders with
  | error e => simp [h1] at h
  | ok r1 =>
    cases h2 : prepareRules Compile config.WhitelistRequestHeaders with
    | error e => simp [h1, h2] at h
    | ok r2 =>
      simp only [h1, h2, Except.ok.injEq, Prod.mk.injEq] at h
      obtain ⟨hc, he⟩ := h
      subst hc
      exact ⟨rfl, rfl, rfl, rfl, he.symm⟩

theorem length_pos_iff_ne_empty (str : String) : str.length > 0 ↔ str ≠ "" := by
  constructor
  · intro h he
    rw [he] at h
    exact absurd h (by decide)
  · intro h
    rcases Nat.eq_zero_or_pos str.length with h0 | h0
    · exfalso
      apply h
      have hd : str.data = [] := List.length_eq_zero.mp h0
      exact String.ext hd
    · exact h0

theorem compileField_empty (Compile : String → Option Regexp) :
    compileField Compile "" = Except.ok none := by
  unfold compileField
  rw [if_neg (by decide)]

theorem compileField_valid (Compile : String → Option Regexp) (pattern : String)
    (h : pattern ≠ "" → Compile pattern ≠ none) :
    compileField Compile pattern
      = Except.ok (if pattern = "" then none else Compile pattern) := by
  unfold compileField MustCompile
  by_cases he : pattern = ""
  · have hl : ¬ pattern.length > 0 := fun hl => (length_pos_iff_ne_empty pattern).mp hl he
    rw [if_neg hl, if_pos he]
  · have hl : pattern.length > 0 := (length_pos_iff_ne_empty pattern).mpr he
    rw [if_pos hl, if_neg he]
    cases hc : Compile pattern with
    | none => exact absurd hc (h he)
    | some re => rfl

theorem compileField_invalid (Compile : String → Option Regexp) (pattern : String)
    (he : pattern ≠ "") (hc : Compile pattern = none) :
    compileField Compile pattern = Except.error (Panic.mustCompile pattern) := by
  unfold compileField MustCompile
  rw [if_pos ((length_pos_iff_ne_empty pattern).mpr he), hc]

theorem prepareRules_valid (Compile : String → Option Regexp)
    (headerConfig : List HeaderConfig)
    (hvalid : ∀ h ∈ headerConfig,
      (h.Name ≠ "" → Compile h.Name ≠ none) ∧ (h.Value ≠ "" → Compile h.Value ≠ none)) :
    prepareRules Compile headerConfig
      = Except.ok (headerConfig.map (fun h =>
          (⟨if h.Name = "" then none else Compile h.Name,
            if h.Value = "" then none else Compile h.Value⟩ : rule))) := by
  induction headerConfig with
  | nil => rfl
  | cons h rest ih =>
    have hh := hvalid h (List.mem_cons_self _ _)
    have hrest := ih (fun x hx => hvalid x (List.mem_cons_of_mem _ hx))
    unfold prepareRules
    rw [compileField_valid Compile h.Name hh.1, compileField_valid Compile h.Value hh.2, hrest]
    rfl

theorem prepareRules_invalid (Compile : String → Option Regexp)
    (headerConfig : List HeaderConfig)
    (hbad : ∃ h ∈ headerConfig,
      (h.Name ≠ "" ∧ Compile h.Name = none) ∨ (h.Value ≠ "" ∧ Compile h.Value = none)) :
    ∃ str, Compile str = none ∧ str ≠ ""
      ∧ prepareRules Compile headerConfig = Except.error (Panic.mustCompile str) := by
  induction headerConfig with
  | nil =>
    obtain ⟨h, hh, -⟩ := hbad
    cases hh
  | cons h rest ih =>
    unfold prepareRules
    by_cases hn : h.Name ≠ "" ∧ Compile h.Name = none
    · refine ⟨h.Name, hn.2, hn.1, ?_⟩
      rw [compileField_invalid Compile h.Name hn.1 hn.2]
    · have hnv : h.Name ≠ "" → Compile h.Name ≠ none := fun a b => hn ⟨a, b⟩
      rw [compileField_valid Compile h.Name hnv]
      by_cases hv : h.Value ≠ "" ∧ Compile h.Value = none
      · refine ⟨h.Value, hv.2, hv.1, ?_⟩
        rw [compileField_invalid Compile h.Value hv.1 hv.2]
      · have hvv : h.Value ≠ "" → Compile h.Value ≠ none := fun a b => hv ⟨a, b⟩
        rw [compileField_valid Compile h.Value hvv]
        have hrest : ∃ x ∈ rest,
            (x.Name ≠ "" ∧ Compile x.Name = none) ∨ (x.Value ≠ "" ∧ Compile x.Value = none) := by
          obtain ⟨x, hx, hxb⟩ := hbad
          rcases List.mem_cons.mp hx with rfl | hx
          · rcases hxb with hxb | hxb
            · exact absurd hxb hn
            · exact absurd hxb hv
          · exact ⟨x, hx, hxb⟩
        obtain ⟨str, hs1, hs2, hs3⟩ := ih hrest
        refine ⟨str, hs1, hs2, ?_⟩
        simp only [hs3]

theorem splitComma_of_not_mem (s : List Char) (h : ',' ∉ s) : splitComma s = [s] := by
  induction s with
  | nil => rfl
  | cons c cs ih =>
    have hc : c ≠ ',' := fun e => h (e ▸ List.mem_cons_self _ _)
    have hcs : ',' ∉ cs := fun e => h (List.mem_cons_of_mem _ e)
    unfold splitComma
    rw [if_neg hc, ih hcs]

theorem Contains_of_number {n : IPNet} {ip : IP}
    (h : (networkNumberAndMask n).1 = if ip.To4 = [] then ip else ip.To4) :
    n.Contains ip = true := by
  unfold IPNet.Contains
  simp only [h, ne_eq, not_true_eq_false, if_false, List.all_eq_true, beq_self_eq_true,
    implies_true]

theorem bareNet_number {ip : IP} (hlen : ip.length = IPv6len) :
    (networkNumberAndMask
      ⟨ip, if ip.To4 ≠ [] then CIDRMask 32 32 else CIDRMask 128 128⟩).1
      = if ip.To4 = [] then ip else ip.To4 := by
  have hne : ip ≠ [] := by
    intro h
    rw [h] at hlen
    simp [IPv6len] at hlen
  unfold networkNumberAndMask
  rcases To4_length ip with ht | ht
  · simp [ht, hlen, CIDRMask_128, IPv4len, IPv6len, hne]
  · have htne : ip.To4 ≠ [] := by
      intro h
      rw [h] at ht
      simp [IPv4len] at ht
    simp [htne, CIDRMask_32, IPv4len, ht]

theorem parsePart_bare (N : Net) (logEnabled : Bool) (part : List Char)
    (hne : String.mk (trimSpace part) ≠ "")
    (hcidr : N.ParseCIDR (String.mk (trimSpace part)) = none)
    (hip : N.ParseIP (String.mk (trimSpace part)) ≠ []) :
    parsePart N logEnabled part
      = ([⟨N.ParseIP (String.mk (trimSpace part)),
          if (N.ParseIP (String.mk (trimSpace part))).To4 ≠ [] then CIDRMask 32 32
          else CIDRMask 128 128⟩], []) := by
  unfold parsePart
  simp only [hne, if_false, hcidr, ne_eq, hip, not_false_eq_true, if_true]
  by_cases ht : (N.ParseIP (String.mk (trimSpace part))).To4 = []
  · simp [ht]
  · simp [ht]

theorem parsePart_ranges (N : Net) (logEnabled : Bool) (part : List Char) :
    (parsePart N logEnabled part).1 = (rangeOfPart N part).toList := by
  unfold parsePart rangeOfPart
  by_cases he : String.mk (trimSpace part) = ""
  · simp [he]
  · simp only [he, if_false]
    cases hc : N.ParseCIDR (String.mk (trimSpace part)) with
    | some cidr => simp
    | none =>
      by_cases hp : N.ParseIP (String.mk (trimSpace part)) = []
      · simp [hp]
      · by_cases ht : (N.ParseIP (String.mk (trimSpace part))).To4 = []
        · simp [hp, ht]
        · simp [hp, ht]

theorem parseParts_ranges (N : Net) (logEnabled : Bool) (parts : List (List Char)) :
    (parseParts N logEnabled parts).1 = parts.filterMap (rangeOfPart N) := by
  induction parts with
  | nil => rfl
  | cons part rest ih =>
    simp only [parseParts, parsePart_ranges, ih, List.filterMap_cons]
    cases rangeOfPart N part <;> simp

theorem parseAllowedIPs_ranges (N : Net) (raw : List String) (logEnabled : Bool) :
    (parseAllowedIPs N raw logEnabled).1 = rangesOfEntries N raw := by
  induction raw with
  | nil => rfl
  | cons entry rest ih =>
    simp only [parseAllowedIPs, rangesOfEntries, parseParts_ranges, ih]

theorem rangesOfEntries_append (N : Net) (xs ys : List String) :
    rangesOfEntries N (xs ++ ys) = rangesOfEntries N xs ++ rangesOfEntries N ys := by
  induction xs with
  | nil => rfl
  | cons x rest ih =>
    show (splitComma x.toList).filterMap (rangeOfPart N) ++ rangesOfEntries N (rest ++ ys)
      = (splitComma x.toList).filterMap (rangeOfPart N) ++ rangesOfEntries N rest
        ++ rangesOfEntries N ys
    rw [ih, List.append_assoc]

theorem splitComma_ne_nil (s : List Char) : splitComma s ≠ [] := by
  cases s with
  | nil => simp [splitComma]
  | cons c cs =>
    unfold splitComma
    by_cases hc : c = ','
    · simp [hc]
    · rw [if_neg hc]
      cases splitComma cs <;> simp

theorem splitComma_append_comma (x y : List Char) :
    splitComma (x ++ ',' :: y) = splitComma x ++ splitComma y := by
  induction x with
  | nil => simp [splitComma]
  | cons c cs ih =>
    by_cases hc : c = ','
    · simp [splitComma, hc, ih]
    · cases hs : splitComma cs with
      | nil => exact absurd hs (splitComma_ne_nil cs)
      | cons part parts =>
        have e1 : ∀ t : List Char, splitComma (c :: t)
            = (match splitComma t with
              | [] => [[c]]
              | p :: ps => (c :: p) :: ps) := by
          intro t
          rw [splitComma, if_neg hc]
        show splitComma (c :: (cs ++ ',' :: y)) = splitComma (c :: cs) ++ splitComma y
        rw [e1, e1, ih, hs]
        rfl

theorem trimSpace_cons_space (part : List Char) : trimSpace (' ' :: part) = trimSpace part := by
  have h : isSpace ' ' = true := by decide
  simp [trimSpace, List.dropWhile, h]

theorem rangeOfPart_cons_space (N : Net) (part : List Char) :
    rangeOfPart N (' ' :: part) = rangeOfPart N part := by
  simp only [rangeOfPart, trimSpace_cons_space]

theorem ranges_splitComma_cons_space (N : Net) (y : List Char) :
    (splitComma (' ' :: y)).filterMap (rangeOfPart N)
      = (splitComma y).filterMap (rangeOfPart N) := by
  have hsp : (' ' : Char) ≠ ',' := by decide
  simp only [splitComma, hsp, if_false]
  cases hs : splitComma y with
  | nil => exact absurd hs (splitComma_ne_nil y)
  | cons part parts => simp [List.filterMap_cons, rangeOfPart_cons_space]

theorem rangeOfPart_eq_none {N : Net} {part : List Char}
    (h : String.mk (trimSpace part) = ""
      ∨ (N.ParseCIDR (String.mk (trimSpace part)) = none
        ∧ N.ParseIP (String.mk (trimSpace part)) = [])) :
    rangeOfPart N part = none := by
  unfold rangeOfPart
  rcases h with h | ⟨h1, h2⟩
  · simp [h]
  · simp [h1, h2]

theorem ranges_of_invalid {N : Net} {parts : List (List Char)}
    (h : ∀ part ∈ parts, String.mk (trimSpace part) = ""
      ∨ (N.ParseCIDR (String.mk (trimSpace part)) = none
        ∧ N.ParseIP (String.mk (trimSpace part)) = [])) :
    parts.filterMap (rangeOfPart N) = [] := by
  induction parts with
  | nil => rfl
  | cons part rest ih =>
    rw [List.filterMap_cons, rangeOfPart_eq_none (h part (List.mem_cons_self _ _))]
    exact ih (fun x hx => h x (List.mem_cons_of_mem _ hx))

/-! ## Properties of the IP check and of the construction -/

/-- C12. A malformed regular expression is fatal at construction: when some non-empty
header-name or header-value pattern of requestHeaders or whitelistRequestHeaders is not
a valid regular expression, `New` does not return: `regexp.MustCompile` panics on a
non-empty pattern that does not compile, and no plugin is produced; when every
non-empty pattern is valid, `New` returns a plugin together with the nil error. One of
the two always happens. -/
theorem C12_malformed_pattern_is_fatal (Compile : String → Option Regexp) (N : Net)
    (config : Config) :
    ((∃ h ∈ config.RequestHeaders ++ config.WhitelistRequestHeaders,
        (h.Name ≠ "" ∧ Compile h.Name = none) ∨ (h.Value ≠ "" ∧ Compile h.Value = none)) ↔
      ∃ str, Compile str = none ∧ str ≠ ""
        ∧ (New Compile N config).2 = Except.error (Panic.mustCompile str))
    ∧ ((∀ h ∈ config.RequestHeaders ++ config.WhitelistRequestHeaders,
        (h.Name ≠ "" → Compile h.Name ≠ none) ∧ (h.Value ≠ "" → Compile h.Value ≠ none)) ↔
      ∃ c : headerBlock, (New Compile N config).2 = Except.ok (c, none)) := by
  have hbad : (∃ h ∈ config.RequestHeaders ++ config.WhitelistRequestHeaders,
        (h.Name ≠ "" ∧ Compile h.Name = none) ∨ (h.Value ≠ "" ∧ Compile h.Value = none)) →
      ∃ str, Compile str = none ∧ str ≠ ""
        ∧ (New Compile N config).2 = Except.error (Panic.mustCompile str) := by
    rintro ⟨h, hh, hb⟩
    by_cases h1 : ∃ x ∈ config.RequestHeaders,
        (x.Name ≠ "" ∧ Compile x.Name = none) ∨ (x.Value ≠ "" ∧ Compile x.Value = none)
    · obtain ⟨str, hs1, hs2, hs3⟩ := prepareRules_invalid Compile _ h1
      refine ⟨str, hs1, hs2, ?_⟩
      simp only [New, hs3]
    · have hv1 : ∀ x ∈ config.RequestHeaders,
          (x.Name ≠ "" → Compile x.Name ≠ none) ∧ (x.Value ≠ "" → Compile x.Value ≠ none) := by
        intro x hx
        exact ⟨fun a b => h1 ⟨x, hx, Or.inl ⟨a, b⟩⟩, fun a b => h1 ⟨x, hx, Or.inr ⟨a, b⟩⟩⟩
      have h2 : ∃ x ∈ config.WhitelistRequestHeaders,
          (x.Name ≠ "" ∧ Compile x.Name = none) ∨ (x.Value ≠ "" ∧ Compile x.Value = none) := by
        rcases List.mem_append.mp hh with hh | hh
        · exact absurd ⟨h, hh, hb⟩ h1
        · exact ⟨h, hh, hb⟩
      obtain ⟨str, hs1, hs2, hs3⟩ := prepareRules_invalid Compile _ h2
      refine ⟨str, hs1, hs2, ?_⟩
      simp only [New, prepareRules_valid Compile _ hv1, hs3]
  have hgood : (∀ h ∈ config.RequestHeaders ++ config.WhitelistRequestHeaders,
        (h.Name ≠ "" → Compile h.Name ≠ none) ∧ (h.Value ≠ "" → Compile h.Value ≠ none)) →
      ∃ c : headerBlock, (New Compile N config).2 = Except.ok (c, none) := by
    intro hall
    have hv1 := prepareRules_valid Compile config.RequestHeaders
      (fun x hx => hall x (List.mem_append_left _ hx))
    have hv2 := prepareRules_valid Compile config.WhitelistRequestHeaders
      (fun x hx => hall x (List.mem_append_right _ hx))
    simp only [New, hv1, hv2]
    exact ⟨_, rfl⟩
  have hsplit : (∃ h ∈ config.RequestHeaders ++ config.WhitelistRequestHeaders,
        (h.Name ≠ "" ∧ Compile h.Name = none) ∨ (h.Value ≠ "" ∧ Compile h.Value = none))
      ∨ (∀ h ∈ config.RequestHeaders ++ config.WhitelistRequestHeaders,
        (h.Name ≠ "" → Compile h.Name ≠ none) ∧ (h.Value ≠ "" → Compile h.Value ≠ none)) := by
    by_cases hb : ∃ h ∈ config.RequestHeaders ++ config.WhitelistRequestHeaders,
        (h.Name ≠ "" ∧ Compile h.Name = none) ∨ (h.Value ≠ "" ∧ Compile h.Value = none)
    · exact Or.inl hb
    · right
      intro h hh
      exact ⟨fun a b => hb ⟨h, hh, Or.inl ⟨a, b⟩⟩, fun a b => hb ⟨h, hh, Or.inr ⟨a, b⟩⟩⟩
  refine ⟨⟨hbad, ?_⟩, ⟨hgood, ?_⟩⟩
  · rintro ⟨str, -, -, herr⟩
    rcases hsplit with hb | hg
    · exact hb
    · obtain ⟨c, hc⟩ := hgood hg
      rw [hc] at herr
      cases herr
  · rintro ⟨c, hc⟩
    rcases hsplit with hb | hg
    · obtain ⟨str, -, -, herr⟩ := hbad hb
      rw [hc] at herr
      cases herr
    · exact hg

/-- C12 on two configurations, with patterns without special characters compiled as
such and the pattern "(" invalid: the configuration with the whitelist value pattern
"(" makes `New` panic in `regexp.MustCompile`, and the configuration of the test
`BlockedUserAgent` makes `New` return a plugin and the nil error. -/
theorem C12_malformed_pattern_is_fatal_witness :
    (∃ str, compileLiteral str = none ∧ str ≠ ""
      ∧ (New compileLiteral net4 ⟨[⟨"User-Agent", "Googlebot"⟩], [⟨"", "("⟩], [], false⟩).2
          = Except.error (Panic.mustCompile str))
    ∧ ∃ c : headerBlock,
        (New compileLiteral net4 ⟨[⟨"User-Agent", "Googlebot"⟩], [], [], false⟩).2
          = Except.ok (c, none) :=
  ⟨(C12_malformed_pattern_is_fatal compileLiteral net4
      ⟨[⟨"User-Agent", "Googlebot"⟩], [⟨"", "("⟩], [], false⟩).1.mp
      ⟨⟨"", "("⟩, by decide, Or.inr ⟨by decide, rfl⟩⟩,
    (C12_malformed_pattern_is_fatal compileLiteral net4
      ⟨[⟨"User-Agent", "Googlebot"⟩], [], [], false⟩).2.mp
      (by
        intro h hh
        rcases List.mem_singleton.mp hh with rfl
        have h1 : compileLiteral "User-Agent" = some (Regexp.literal "User-Agent") := rfl
        have h2 : compileLiteral "Googlebot" = some (Regexp.literal "Googlebot") := rfl
        exact ⟨fun _ hc => Option.noConfusion (hc.symm.trans h1),
          fun _ hc => Option.noConfusion (hc.symm.trans h2)⟩)⟩

/-- C13, counterexample: the entry "::ffff:10.0.0.1" is a valid bare IPv6 address, in
IPv4-mapped form. `ParseCIDR` rejects it, `ParseIP` returns the same 16 bytes as for
"10.0.0.1", whose 4-byte form is not nil, and `parseAllowedIPs` compiles it to a range
whose mask has 4 bytes and 32 ones, not the prefix length 128. -/
theorem C13_ipv4_mapped_entry_gets_32 :
    netGo.ParseCIDR "::ffff:10.0.0.1" = none
    ∧ netGo.ParseIP "::ffff:10.0.0.1" = v4InV6Prefix ++ [10, 0, 0, 1]
    ∧ netGo.ParseIP "::ffff:10.0.0.1" = netGo.ParseIP "10.0.0.1"
    ∧ (parseAllowedIPs netGo ["::ffff:10.0.0.1"] false).1
        = [⟨v4InV6Prefix ++ [10, 0, 0, 1], [0xff, 0xff, 0xff, 0xff]⟩]
    ∧ (parseAllowedIPs netGo ["::ffff:10.0.0.1"] false).1
        ≠ [⟨v4InV6Prefix ++ [10, 0, 0, 1], CIDRMask 128 128⟩] := by
  decide

/-- C13, as amended. For every entry without a comma whose trimmed text `ip` is a valid
bare IP address (`ParseCIDR` rejects it and `ParseIP` returns an address, of 16 bytes),
`parseAllowedIPs` compiles exactly one range, made of the parsed address and a mask of
all ones: the mask of 4 bytes, prefix length 32, when the address has a 4-byte form
(`To4` is not nil: IPv4 text, and IPv4-mapped IPv6 text), and the mask of 16 bytes,
prefix length 128, for every other address; in both cases the range contains the
address. -/
theorem C13_bare_ip_normalization (N : Net) (logEnabled : Bool) (entry ip : String)
    (hcomma : ',' ∉ entry.toList)
    (htrim : String.mk (trimSpace entry.toList) = ip)
    (hne : ip ≠ "")
    (hcidr : N.ParseCIDR ip = none)
    (hlen : (N.ParseIP ip).length = IPv6len) :
    (parseAllowedIPs N [entry] logEnabled).1
        = [⟨N.ParseIP ip,
            if (N.ParseIP ip).To4 ≠ [] then CIDRMask 32 32 else CIDRMask 128 128⟩]
    ∧ CIDRMask 32 32 = [0xff, 0xff, 0xff, 0xff]
    ∧ CIDRMask 128 128 = List.replicate 16 0xff
    ∧ IPNet.Contains
        ⟨N.ParseIP ip, if (N.ParseIP ip).To4 ≠ [] then CIDRMask 32 32 else CIDRMask 128 128⟩
        (N.ParseIP ip) = true := by
  have hip : N.ParseIP ip ≠ [] := by
    intro h
    rw [h] at hlen
    simp [IPv6len] at hlen
  subst htrim
  refine ⟨?_, CIDRMask_32, CIDRMask_128, Contains_of_number (bareNet_number hlen)⟩
  simp only [parseAllowedIPs, splitComma_of_not_mem _ hcomma, parseParts,
    parsePart_bare N logEnabled entry.toList hne hcidr hip, List.append_nil]

/-- C13, as amended, on three entries: " 192.0.2.1 " (IPv4 text, with spaces around)
compiles to 192.0.2.1 with the 4-byte mask, "2001:db8::68" to the 16-byte mask, and each
range contains its address. -/
theorem C13_bare_ip_normalization_witness :
    ((parseAllowedIPs netGo [" 192.0.2.1 "] false).1
        = [⟨netGo.ParseIP "192.0.2.1",
            if (netGo.ParseIP "192.0.2.1").To4 ≠ [] then CIDRMask 32 32
            else CIDRMask 128 128⟩]
      ∧ CIDRMask 32 32 = [0xff, 0xff, 0xff, 0xff]
      ∧ CIDRMask 128 128 = List.replicate 16 0xff
      ∧ IPNet.Contains
          ⟨netGo.ParseIP "192.0.2.1",
            if (netGo.ParseIP "192.0.2.1").To4 ≠ [] then CIDRMask 32 32
            else CIDRMask 128 128⟩
          (netGo.ParseIP "192.0.2.1") = true)
    ∧ ((parseAllowedIPs netGo ["2001:db8::68"] false).1
        = [⟨netGo.ParseIP "2001:db8::68",
            if (netGo.ParseIP "2001:db8::68").To4 ≠ [] then CIDRMask 32 32
            else CIDRMask 128 128⟩]
      ∧ CIDRMask 32 32 = [0xff, 0xff, 0xff, 0xff]
      ∧ CIDRMask 128 128 = List.replicate 16 0xff
      ∧ IPNet.Contains
          ⟨netGo.ParseIP "2001:db8::68",
            if (netGo.ParseIP "2001:db8::68").To4 ≠ [] then CIDRMask 32 32
            else CIDRMask 128 128⟩
          (netGo.ParseIP "2001:db8::68") = true)
    ∧ (parseAllowedIPs netGo [" 192.0.2.1 "] false).1
        = [⟨v4InV6Prefix ++ [192, 0, 2, 1], [0xff, 0xff, 0xff, 0xff]⟩]
    ∧ (parseAllowedIPs netGo ["2001:db8::68"] false).1
        = [⟨[0x20, 0x01, 0x0d, 0xb8, 0, 0, 0, 0, 0, 0, 0, 0, 0, 0, 0, 0x68],
            List.replicate 16 0xff⟩] :=
  ⟨C13_bare_ip_normalization netGo false " 192.0.2.1 " "192.0.2.1" (by decide) (by decide)
      (by decide) (by decide) (by decide),
    C13_bare_ip_normalization netGo false "2001:db8::68" "2001:db8::68" (by decide)
      (by decide) (by decide) (by decide) (by decide),
    by decide, by decide⟩

/-- C14. `parseAllowedIPs` is total and fault-tolerant: for every list of raw strings it
returns, in order, exactly one range for each comma-separated, trimmed, non-empty part
that parses as a CIDR or as a bare IP, and nothing for every other part
(`rangesOfEntries`), whether logging is on or off. Hence an entry `bad` all of whose
parts are blank or invalid can be inserted or removed anywhere, as an entry of its own
or between two commas inside an entry, without changing the result, and the strings
"a,b" and "a, b" yield the same ranges as the two separate strings "a" and "b". -/
theorem C14_parseAllowedIPs_fault_tolerant (N : Net) (logEnabled : Bool)
    (raw before after : List String) (a b bad : String)
    (hbad : ∀ part ∈ splitComma bad.toList,
      String.mk (trimSpace part) = ""
        ∨ (N.ParseCIDR (String.mk (trimSpace part)) = none
          ∧ N.ParseIP (String.mk (trimSpace part)) = [])) :
    (parseAllowedIPs N raw logEnabled).1 = rangesOfEntries N raw
    ∧ (parseAllowedIPs N raw true).1 = (parseAllowedIPs N raw false).1
    ∧ (parseAllowedIPs N (before ++ [bad] ++ after) logEnabled).1
        = (parseAllowedIPs N (before ++ after) logEnabled).1
    ∧ (parseAllowedIPs N (before ++ [a ++ "," ++ bad ++ "," ++ b] ++ after) logEnabled).1
        = (parseAllowedIPs N (before ++ [a ++ "," ++ b] ++ after) logEnabled).1
    ∧ (parseAllowedIPs N (before ++ [a ++ "," ++ b] ++ after) logEnabled).1
        = (parseAllowedIPs N (before ++ [a, b] ++ after) logEnabled).1
    ∧ (parseAllowedIPs N (before ++ [a ++ ", " ++ b] ++ after) logEnabled).1
        = (parseAllowedIPs N (before ++ [a, b] ++ after) logEnabled).1 := by
  have hb0 : (splitComma bad.toList).filterMap (rangeOfPart N) = [] := ranges_of_invalid hbad
  have h1 : (a ++ "," ++ b).toList = a.toList ++ ',' :: b.toList := by simp
  have h2 : (a ++ "," ++ bad ++ "," ++ b).toList
      = a.toList ++ ',' :: (bad.toList ++ ',' :: b.toList) := by simp
  have h3 : (a ++ ", " ++ b).toList = a.toList ++ ',' :: (' ' :: b.toList) := by simp
  refine ⟨parseAllowedIPs_ranges N raw logEnabled, ?_, ?_, ?_, ?_, ?_⟩
  · rw [parseAllowedIPs_ranges, parseAllowedIPs_ranges]
  · simp only [parseAllowedIPs_ranges, rangesOfEntries_append, rangesOfEntries, hb0,
      List.nil_append, List.append_nil]
  · simp only [parseAllowedIPs_ranges, rangesOfEntries_append, rangesOfEntries, h1, h2,
      splitComma_append_comma, List.filterMap_append, hb0, List.nil_append, List.append_nil]
  · simp only [parseAllowedIPs_ranges, rangesOfEntries_append, rangesOfEntries, h1,
      splitComma_append_comma, List.filterMap_append, List.append_nil, List.append_assoc]
  · simp only [parseAllowedIPs_ranges, rangesOfEntries_append, rangesOfEntries, h3,
      splitComma_append_comma, List.filterMap_append, ranges_splitComma_cons_space,
      List.append_nil, List.append_assoc]

/-- C14 on the entry "10.0.0.0/8,nonsense, ,192.0.2.1": the invalid part and the blank
part are skipped, so the entry yields the same ranges as "10.0.0.0/8,192.0.2.1", and
"10.0.0.0/8, 192.0.2.1" yields the same ranges as the two separate entries, namely
10.0.0.0/8 and 192.0.2.1/32; the invalid part is logged and nothing else happens. -/
theorem C14_parseAllowedIPs_fault_tolerant_witness :
    (parseAllowedIPs net4 ["10.0.0.0/8,nonsense, ,192.0.2.1"] true).1
        = (parseAllowedIPs net4 ["10.0.0.0/8,192.0.2.1"] true).1
    ∧ (parseAllowedIPs net4 ["10.0.0.0/8, 192.0.2.1"] true).1
        = (parseAllowedIPs net4 ["10.0.0.0/8", "192.0.2.1"] true).1
    ∧ parseAllowedIPs net4 ["10.0.0.0/8,nonsense, ,192.0.2.1"] true
        = ([⟨[10, 0, 0, 0], [255, 0, 0, 0]⟩,
            ⟨v4InV6Prefix ++ [192, 0, 2, 1], [255, 255, 255, 255]⟩],
          [LogLine.invalidAllowedIP "nonsense"]) :=
  ⟨(C14_parseAllowedIPs_fault_tolerant net4 true [] [] [] "10.0.0.0/8" "192.0.2.1"
      "nonsense, " (by decide)).2.2.2.1,
    (C14_parseAllowedIPs_fault_tolerant net4 true [] [] [] "10.0.0.0/8" "192.0.2.1"
      "nonsense, " (by decide)).2.2.2.2.2,
    by decide⟩

/-- C15. `prepareRules` preserves the configuration: for every list of {Name, Value}
pairs whose non-empty patterns are valid it returns a list of rules of the same length
and in the same order, where the i-th rule has a name pattern exactly when the i-th Name
is not empty, then the one compiled from that very string, and a value pattern exactly
when the i-th Value is not empty, then the one compiled from that very string; an empty
string gives an absent pattern, never a compiled one. -/
theorem C15_prepareRules_preserves_config (Compile : String → Option Regexp)
    (headerConfig : List HeaderConfig)
    (hvalid : ∀ h ∈ headerConfig,
      (h.Name ≠ "" → Compile h.Name ≠ none) ∧ (h.Value ≠ "" → Compile h.Value ≠ none)) :
    ∃ rules : List rule,
      prepareRules Compile headerConfig = Except.ok rules
      ∧ rules.length = headerConfig.length
      ∧ ∀ (i : Nat) (h : HeaderConfig), headerConfig[i]? = some h →
          ∃ r : rule, rules[i]? = some r
            ∧ (h.Name = "" → r.name = none)
            ∧ (h.Name ≠ "" → r.name = Compile h.Name ∧ r.name.isSome = true)
            ∧ (h.Value = "" → r.value = none)
            ∧ (h.Value ≠ "" → r.value = Compile h.Value ∧ r.value.isSome = true) := by
  refine ⟨_, prepareRules_valid Compile headerConfig hvalid, by simp, ?_⟩
  intro i h hi
  have hmem : h ∈ headerConfig := List.getElem?_mem hi
  have hv := hvalid h hmem
  refine ⟨⟨if h.Name = "" then none else Compile h.Name,
    if h.Value = "" then none else Compile h.Value⟩, ?_, ?_, ?_, ?_, ?_⟩
  · rw [List.getElem?_map, hi]
    rfl
  · intro he
    simp [he]
  · intro he
    refine ⟨by simp [he], ?_⟩
    simp only [he, if_false]
    cases hc : Compile h.Name with
    | none => exact absurd hc (hv.1 he)
    | some re => rfl
  · intro he
    simp [he]
  · intro he
    refine ⟨by simp [he], ?_⟩
    simp only [he, if_false]
    cases hc : Compile h.Value with
    | none => exact absurd hc (hv.2 he)
    | some re => rfl

/-- C15 on the configuration [{Name: "User-Agent", Value: "Googlebot"}, {Value:
"evil"}, {Name: "Cf-Ipcountry"}], with patterns without special characters compiled as
such: three rules in the same order, the second without a name pattern and the third
without a value pattern. -/
theorem C15_prepareRules_preserves_config_witness :
    ∃ rules : List rule,
      prepareRules compileLiteral
          [⟨"User-Agent", "Googlebot"⟩, ⟨"", "evil"⟩, ⟨"Cf-Ipcountry", ""⟩] = Except.ok rules
      ∧ rules.length = 3
      ∧ rules.map (fun r => (r.name.isSome, r.value.isSome))
          = [(true, true), (false, true), (true, false)] := by
  obtain ⟨rules, hok, hlen, hidx⟩ := C15_prepareRules_preserves_config compileLiteral
    [⟨"User-Agent", "Googlebot"⟩, ⟨"", "evil"⟩, ⟨"Cf-Ipcountry", ""⟩]
    (by
      intro h hh
      have h1 : compileLiteral "User-Agent" = some (Regexp.literal "User-Agent") := rfl
      have h2 : compileLiteral "Googlebot" = some (Regexp.literal "Googlebot") := rfl
      have h3 : compileLiteral "evil" = some (Regexp.literal "evil") := rfl
      have h4 : compileLiteral "Cf-Ipcountry" = some (Regexp.literal "Cf-Ipcountry") := rfl
      simp only [List.mem_cons, List.mem_singleton, List.not_mem_nil, or_false] at hh
      rcases hh with rfl | rfl | rfl
      · exact ⟨fun _ hc => Option.noConfusion (hc.symm.trans h1),
          fun _ hc => Option.noConfusion (hc.symm.trans h2)⟩
      · exact ⟨fun hne => absurd rfl hne, fun _ hc => Option.noConfusion (hc.symm.trans h3)⟩
      · exact ⟨fun _ hc => Option.noConfusion (hc.symm.trans h4), fun hne => absurd rfl hne⟩)
  refine ⟨rules, hok, hlen, ?_⟩
  have hrules : prepareRules compileLiteral
      [⟨"User-Agent", "Googlebot"⟩, ⟨"", "evil"⟩, ⟨"Cf-Ipcountry", ""⟩]
      = Except.ok [⟨some (Regexp.literal "User-Agent"), some (Regexp.literal "Googlebot")⟩,
          ⟨none, some (Regexp.literal "evil")⟩,
          ⟨some (Regexp.literal "Cf-Ipcountry"), none⟩] := rfl
  rw [hrules] at hok
  cases hok
  rfl

/-! ## Lemmas on order and on the shape of the trace -/

theorem isWhitelisted_cons (name : String) (values : List String) (r : rule)
    (whitelist : List rule) :
    isWhitelisted name values (r :: whitelist)
      = (isWhitelisted name values [r] || isWhitelisted name values whitelist) := by
  obtain ⟨rn, rv⟩ := r
  cases rn with
  | none =>
    cases rv with
    | none => simp [isWhitelisted]
    | some V => cases hV : matchesAnyValue V values <;> simp [isWhitelisted, hV]
  | some Nm =>
    cases hN : Nm.MatchString name with
    | false => simp [isWhitelisted, hN]
    | true =>
      cases rv with
      | none => simp [isWhitelisted, hN]
      | some V => cases hV : matchesAnyValue V values <;> simp [isWhitelisted, hN, hV]

theorem isWhitelisted_iff_mem (name : String) (values : List String) (whitelist : List rule) :
    isWhitelisted name values whitelist = true ↔
      ∃ r ∈ whitelist, isWhitelisted name values [r] = true := by
  induction whitelist with
  | nil => simp [isWhitelisted]
  | cons r rest ih =>
    rw [isWhitelisted_cons, Bool.or_eq_true, ih]
    simp

theorem isWhitelisted_perm (name : String) (values : List String) {wl wl2 : List rule}
    (h : wl.Perm wl2) : isWhitelisted name values wl = isWhitelisted name values wl2 := by
  have hiff : isWhitelisted name values wl = true ↔ isWhitelisted name values wl2 = true := by
    rw [isWhitelisted_iff_mem, isWhitelisted_iff_mem]
    constructor
    · rintro ⟨r, hr, hw⟩
      exact ⟨r, h.mem_iff.mp hr, hw⟩
    · rintro ⟨r, hr, hw⟩
      exact ⟨r, h.mem_iff.mpr hr, hw⟩
  cases h1 : isWhitelisted name values wl with
  | true => exact (hiff.mp h1).symm
  | false =>
    cases h2 : isWhitelisted name values wl2 with
    | false => rfl
    | true =>
      rw [hiff.mpr h2] at h1
      cases h1

theorem headerBlocked_perm {rules rules2 wl wl2 : List rule} (nets nets2 : List IPNet)
    (log log2 : Bool) {headers headers2 : List (String × List String)}
    (hr : rules.Perm rules2) (hw : wl.Perm wl2) (hh : headers.Perm headers2) :
    headerBlocked ⟨rules, wl, nets, log⟩ headers
      ↔ headerBlocked ⟨rules2, wl2, nets2, log2⟩ headers2 := by
  unfold headerBlocked
  constructor
  · rintro ⟨h, hmem, r, hrm, ha, hnw⟩
    refine ⟨h, hh.mem_iff.mp hmem, r, hr.mem_iff.mp hrm, ha, ?_⟩
    rw [← isWhitelisted_perm h.1 h.2 hw]
    exact hnw
  · rintro ⟨h, hmem, r, hrm, ha, hnw⟩
    refine ⟨h, hh.mem_iff.mpr hmem, r, hr.mem_iff.mpr hrm, ha, ?_⟩
    rw [isWhitelisted_perm h.1 h.2 hw]
    exact hnw

theorem ipRejected_perm (N : Net) (rules rules2 wl wl2 : List rule) {nets nets2 : List IPNet}
    (log log2 : Bool) (url url2 addr : String) (headers headers2 : List (String × List String))
    (hn : nets.Perm nets2) :
    ipRejected N ⟨rules, wl, nets, log⟩ ⟨url, addr, headers⟩
      ↔ ipRejected N ⟨rules2, wl2, nets2, log2⟩ ⟨url2, addr, headers2⟩ := by
  unfold ipRejected
  have hc : clientIP N ⟨url, addr, headers⟩ = clientIP N ⟨url2, addr, headers2⟩ := rfl
  simp only [hc]
  constructor
  · rintro ⟨hne, hall⟩
    refine ⟨fun h0 => hne ?_, fun n hm => hall n (hn.mem_iff.mpr hm)⟩
    rw [h0] at hn
    exact hn.eq_nil
  · rintro ⟨hne, hall⟩
    refine ⟨fun h0 => hne ?_, fun n hm => hall n (hn.mem_iff.mp hm)⟩
    rw [h0] at hn
    exact hn.symm.eq_nil

theorem blockRulesLoop_trace (c : headerBlock) (req : Request) (name : String)
    (values : List String) (rules : List rule) :
    ∃ lines : List LogLine, (c.log = false → lines = [])
      ∧ (blockRulesLoop c req name values rules).1
        = lines.map Effect.log
          ++ (if (blockRulesLoop c req name values rules).2 = true
              then [Effect.WriteHeader StatusForbidden] else []) := by
  induction rules with
  | nil => exact ⟨[], fun _ => rfl, by simp [blockRulesLoop]⟩
  | cons r rest ih =>
    obtain ⟨lines, hl, ht⟩ := ih
    by_cases ha : applyRule r name values = true
    · by_cases hw : isWhitelisted name values c.whitelistRequestRules = true
      · cases hlog : c.log with
        | false =>
          refine ⟨lines, fun _ => hl hlog, ?_⟩
          simp only [blockRulesLoop, ha, hw, if_true, hlog, logIf, List.nil_append]
          simpa using ht
        | true =>
          refine ⟨LogLine.whitelistedHeader req.URL name :: lines, (fun h => by cases h), ?_⟩
          simp only [blockRulesLoop, ha, hw, if_true, hlog, logIf, List.map_cons,
            List.cons_append, List.nil_append]
          rw [ht]
      · cases hlog : c.log with
        | false =>
          refine ⟨[], fun _ => rfl, ?_⟩
          simp [blockRulesLoop, ha, hw, hlog, logIf]
        | true =>
          refine ⟨[LogLine.blockedHeader req.URL name], (fun h => by cases h), ?_⟩
          simp [blockRulesLoop, ha, hw, hlog, logIf]
    · refine ⟨lines, hl, ?_⟩
      simp only [blockRulesLoop, ha, Bool.false_eq_true, if_false]
      exact ht

theorem headersLoop_trace (c : headerBlock) (req : Request)
    (headers : List (String × List String)) :
    ∃ lines : List LogLine, (c.log = false → lines = [])
      ∧ (headersLoop c req headers).1
        = lines.map Effect.log
          ++ (if (headersLoop c req headers).2 = true
              then [Effect.WriteHeader StatusForbidden] else []) := by
  induction headers with
  | nil => exact ⟨[], fun _ => rfl, by simp [headersLoop]⟩
  | cons h rest ih =>
    obtain ⟨name, values⟩ := h
    obtain ⟨lines1, hl1, ht1⟩ := blockRulesLoop_trace c req name values c.requestHeaderRules
    obtain ⟨lines2, hl2, ht2⟩ := ih
    by_cases h2 : (blockRulesLoop c req name values c.requestHeaderRules).2 = true
    · refine ⟨lines1, hl1, ?_⟩
      simp only [headersLoop, h2, if_true]
      rw [ht1]
      simp [h2]
    · refine ⟨lines1 ++ lines2, (fun h => by rw [hl1 h, hl2 h]; rfl), ?_⟩
      simp only [headersLoop, h2, Bool.false_eq_true, if_false]
      rw [ht1, ht2]
      simp [h2]

theorem ServeHTTP_trace (N : Net) (c : headerBlock) (req : Request) :
    ∃ lines : List LogLine, (c.log = false → lines = [])
      ∧ (ServeHTTP N c req = lines.map Effect.log ++ [Effect.WriteHeader StatusForbidden]
        ∨ ServeHTTP N c req = lines.map Effect.log ++ [Effect.next req]) := by
  obtain ⟨lines, hl, ht⟩ := headersLoop_trace c req req.Header
  unfold ServeHTTP
  by_cases h1 : (ipStep N c req).2 = true
  · cases hlog : c.log with
    | false =>
      refine ⟨[], fun _ => rfl, Or.inl ?_⟩
      simp only [h1, if_true]
      unfold ipStep at h1 ⊢
      by_cases hlen : c.allowedIPNets.length > 0
      · cases hA : ipAllowed (clientIP N req) c.allowedIPNets with
        | false => simp [hlen, hlog, logIf]
        | true => simp [hlen, hA] at h1
      · simp [hlen] at h1
    | true =>
      refine ⟨[LogLine.ipNotAllowed req.URL (clientIP N req)], (fun h => by cases h), Or.inl ?_⟩
      simp only [h1, if_true]
      unfold ipStep at h1 ⊢
      by_cases hlen : c.allowedIPNets.length > 0
      · cases hA : ipAllowed (clientIP N req) c.allowedIPNets with
        | false => simp [hlen, hlog, logIf]
        | true => simp [hlen, hA] at h1
      · simp [hlen] at h1
  · have hnil : (ipStep N c req).1 = [] := by
      unfold ipStep at h1 ⊢
      by_cases hlen : c.allowedIPNets.length > 0
      · cases hA : ipAllowed (clientIP N req) c.allowedIPNets with
        | false => simp [hlen, hA] at h1
        | true => simp [hlen]
      · simp [hlen]
    refine ⟨lines, hl, ?_⟩
    by_cases h2 : (headersLoop c req req.Header).2 = true
    · left
      simp only [h1, h2, Bool.false_eq_true, if_false, if_true, hnil, List.nil_append]
      rw [ht]
      simp [h2]
    · right
      simp only [h1, h2, Bool.false_eq_true, if_false, hnil, List.nil_append]
      rw [ht]
      simp [h2]

theorem calls_map_log (lines : List LogLine) : calls (lines.map Effect.log) = [] := by
  induction lines with
  | nil => rfl
  | cons l rest ih =>
    simp only [List.map_cons, calls, List.filter_cons]
    exact ih

theorem rangesOfEntries_invalid {N : Net} {raw : List String}
    (h : ∀ entry ∈ raw, ∀ part ∈ splitComma entry.toList,
      String.mk (trimSpace part) = ""
        ∨ (N.ParseCIDR (String.mk (trimSpace part)) = none
          ∧ N.ParseIP (String.mk (trimSpace part)) = [])) :
    rangesOfEntries N raw = [] := by
  induction raw with
  | nil => rfl
  | cons entry rest ih =>
    simp only [rangesOfEntries, ranges_of_invalid (h entry (List.mem_cons_self _ _)),
      List.nil_append]
    exact ih (fun e he => h e (List.mem_cons_of_mem _ he))

theorem prepareRules_mem_empty (Compile : String → Option Regexp)
    (headerConfig : List HeaderConfig) :
    ∀ rules : List rule, prepareRules Compile headerConfig = Except.ok rules →
      (⟨"", ""⟩ : HeaderConfig) ∈ headerConfig → (⟨none, none⟩ : rule) ∈ rules := by
  induction headerConfig with
  | nil =>
    intro rules _ hm
    cases hm
  | cons h rest ih =>
    intro rules hok hm
    unfold prepareRules at hok
    cases hn : compileField Compile h.Name with
    | error e => simp [hn] at hok
    | ok name =>
      cases hv : compileField Compile h.Value with
      | error e => simp [hn, hv] at hok
      | ok value =>
        cases hrest : prepareRules Compile rest with
        | error e => simp [hn, hv, hrest] at hok
        | ok restRules =>
          simp only [hn, hv, hrest, Except.ok.injEq] at hok
          subst hok
          rcases List.mem_cons.mp hm with heq | hm
          · have h1 : h.Name = "" := by rw [← heq]
            have h2 : h.Value = "" := by rw [← heq]
            rw [h1, compileField_empty] at hn
            rw [h2, compileField_empty] at hv
            cases hn
            cases hv
            exact List.mem_cons_self _ _
          · exact List.mem_cons_of_mem _ (ih restRules hrest hm)

/-! ## Properties of the verdict as a whole -/

/-- C16. The verdict is order-independent and repeatable: for every plugin and request,
the verdict is unchanged under any permutation of the entries of the header map (the
order of the Go map iteration), of the block rules, of the whitelist rules and of the
allowlist ranges. `ServeHTTP` is a function of the plugin and the request alone, so a
second evaluation yields the same verdict. -/
theorem C16_verdict_order_independent (N : Net) (rules rules2 wl wl2 : List rule)
    (nets nets2 : List IPNet) (log : Bool) (url addr : String)
    (headers headers2 : List (String × List String))
    (hr : rules.Perm rules2) (hw : wl.Perm wl2) (hn : nets.Perm nets2)
    (hh : headers.Perm headers2) :
    (denied (ServeHTTP N ⟨rules, wl, nets, log⟩ ⟨url, addr, headers⟩) ↔
      denied (ServeHTTP N ⟨rules2, wl2, nets2, log⟩ ⟨url, addr, headers2⟩))
    ∧ (allowed ⟨url, addr, headers⟩ (ServeHTTP N ⟨rules, wl, nets, log⟩ ⟨url, addr, headers⟩) ↔
      allowed ⟨url, addr, headers2⟩
        (ServeHTTP N ⟨rules2, wl2, nets2, log⟩ ⟨url, addr, headers2⟩)) := by
  have h1 := ipRejected_perm N rules rules2 wl wl2 log log url url addr headers headers2 hn
  have h2 := headerBlocked_perm nets nets2 log log hr hw hh
  constructor
  · rw [denied_iff, denied_iff]
    exact or_congr h1 h2
  · rw [allowed_iff, allowed_iff]
    exact not_congr (or_congr h1 h2)

/-- C16 on a plugin with two block rules, two whitelist rules and two allowed ranges,
and a request from 10.1.1.1 with two headers: listing each of the four in the other
order leaves the verdict, a deny caused by the header X-Test, unchanged. -/
theorem C16_verdict_order_independent_witness :
    ((denied (ServeHTTP net4
        ⟨[⟨some (Regexp.literal "X-Test"), none⟩, ⟨none, some (Regexp.literal "evil")⟩],
          [⟨none, some (Regexp.literal "good")⟩, ⟨some (Regexp.literal "Accept"), none⟩],
          [⟨[10, 0, 0, 0], [255, 0, 0, 0]⟩, ⟨[192, 0, 2, 0], [255, 255, 255, 0]⟩], false⟩
        ⟨"/test", "10.1.1.1:1234", [("Accept", ["evil"]), ("X-Test", ["blocked"])]⟩) ↔
      denied (ServeHTTP net4
        ⟨[⟨none, some (Regexp.literal "evil")⟩, ⟨some (Regexp.literal "X-Test"), none⟩],
          [⟨some (Regexp.literal "Accept"), none⟩, ⟨none, some (Regexp.literal "good")⟩],
          [⟨[192, 0, 2, 0], [255, 255, 255, 0]⟩, ⟨[10, 0, 0, 0], [255, 0, 0, 0]⟩], false⟩
        ⟨"/test", "10.1.1.1:1234", [("X-Test", ["blocked"]), ("Accept", ["evil"])]⟩))
      ∧ (allowed ⟨"/test", "10.1.1.1:1234", [("Accept", ["evil"]), ("X-Test", ["blocked"])]⟩
        (ServeHTTP net4
          ⟨[⟨some (Regexp.literal "X-Test"), none⟩, ⟨none, some (Regexp.literal "evil")⟩],
            [⟨none, some (Regexp.literal "good")⟩, ⟨some (Regexp.literal "Accept"), none⟩],
            [⟨[10, 0, 0, 0], [255, 0, 0, 0]⟩, ⟨[192, 0, 2, 0], [255, 255, 255, 0]⟩], false⟩
          ⟨"/test", "10.1.1.1:1234", [("Accept", ["evil"]), ("X-Test", ["blocked"])]⟩) ↔
        allowed ⟨"/test", "10.1.1.1:1234", [("X-Test", ["blocked"]), ("Accept", ["evil"])]⟩
        (ServeHTTP net4
          ⟨[⟨none, some (Regexp.literal "evil")⟩, ⟨some (Regexp.literal "X-Test"), none⟩],
            [⟨some (Regexp.literal "Accept"), none⟩, ⟨none, some (Regexp.literal "good")⟩],
            [⟨[192, 0, 2, 0], [255, 255, 255, 0]⟩, ⟨[10, 0, 0, 0], [255, 0, 0, 0]⟩], false⟩
          ⟨"/test", "10.1.1.1:1234", [("X-Test", ["blocked"]), ("Accept", ["evil"])]⟩)))
    ∧ denied (ServeHTTP net4
        ⟨[⟨none, some (Regexp.literal "evil")⟩, ⟨some (Regexp.literal "X-Test"), none⟩],
          [⟨some (Regexp.literal "Accept"), none⟩, ⟨none, some (Regexp.literal "good")⟩],
          [⟨[192, 0, 2, 0], [255, 255, 255, 0]⟩, ⟨[10, 0, 0, 0], [255, 0, 0, 0]⟩], false⟩
        ⟨"/test", "10.1.1.1:1234", [("X-Test", ["blocked"]), ("Accept", ["evil"])]⟩) :=
  ⟨C16_verdict_order_independent net4 _ _ _ _ _ _ false "/test" "10.1.1.1:1234" _ _
      (List.Perm.swap _ _ _) (List.Perm.swap _ _ _) (List.Perm.swap _ _ _)
      (List.Perm.swap _ _ _),
    by decide⟩

/-- C17. The observable effect of `ServeHTTP` is exactly one of two outcomes, for every
request. Its trace is a run of log lines (none when logging is off) followed by a single
call: either `rw.WriteHeader(403)`, and then nothing else is done to the response and
the next handler is not invoked, or `c.next.ServeHTTP rw req` with the request it
received, and then the plugin itself writes no status, header or body. -/
theorem C17_exactly_two_outcomes (N : Net) (c : headerBlock) (req : Request) :
    ∃ lines : List LogLine, (c.log = false → lines = [])
      ∧ ((ServeHTTP N c req = lines.map Effect.log ++ [Effect.WriteHeader StatusForbidden]
          ∧ denied (ServeHTTP N c req) ∧ ¬ allowed req (ServeHTTP N c req))
        ∨ (ServeHTTP N c req = lines.map Effect.log ++ [Effect.next req]
          ∧ allowed req (ServeHTTP N c req) ∧ ¬ denied (ServeHTTP N c req))) := by
  obtain ⟨lines, hl, ht⟩ := ServeHTTP_trace N c req
  refine ⟨lines, hl, ?_⟩
  rcases ht with ht | ht
  · left
    refine ⟨ht, ?_, ?_⟩
    · unfold denied
      rw [ht, calls_append, calls_map_log]
      rfl
    · unfold allowed
      rw [ht, calls_append, calls_map_log]
      simp [calls]
  · right
    refine ⟨ht, ?_, ?_⟩
    · unfold allowed
      rw [ht, calls_append, calls_map_log]
      rfl
    · unfold denied
      rw [ht, calls_append, calls_map_log]
      simp [calls]

/-- C18. An entirely invalid allowlist fails open: when no comma-separated part of any
entry of allowedIPs parses as a CIDR or as an IP (each part is blank, or both parsers
reject it), `parseAllowedIPs` returns the empty list, the plugin built by `New` has an
empty allowlist, and the verdict is that of the header step alone: no request is denied
because of its client address. -/
theorem C18_invalid_allowlist_fails_open (Compile : String → Option Regexp) (N : Net)
    (config : Config) (c : headerBlock) (err : Option String) (req : Request)
    (hnew : (New Compile N config).2 = Except.ok (c, err))
    (hinvalid : ∀ entry ∈ config.AllowedIPs, ∀ part ∈ splitComma entry.toList,
      String.mk (trimSpace part) = ""
        ∨ (N.ParseCIDR (String.mk (trimSpace part)) = none
          ∧ N.ParseIP (String.mk (trimSpace part)) = [])) :
    (parseAllowedIPs N config.AllowedIPs config.Log).1 = []
    ∧ c.allowedIPNets = []
    ∧ (denied (ServeHTTP N c req) ↔
        ∃ h ∈ req.Header, ∃ r ∈ c.requestHeaderRules,
          applyRule r h.1 h.2 = true
            ∧ isWhitelisted h.1 h.2 c.whitelistRequestRules = false)
    ∧ ∀ addr : String,
        (denied (ServeHTTP N c ⟨req.URL, addr, req.Header⟩) ↔ denied (ServeHTTP N c req)) := by
  obtain ⟨-, -, hnets, -, -⟩ := New_ok_fields hnew
  have h0 : (parseAllowedIPs N config.AllowedIPs config.Log).1 = [] := by
    rw [parseAllowedIPs_ranges]
    exact rangesOfEntries_invalid hinvalid
  have hc : c.allowedIPNets = [] := by rw [hnets, h0]
  refine ⟨h0, hc, ?_, ?_⟩
  · rw [denied_iff]
    simp [ipRejected, headerBlocked, hc]
  · intro addr
    rw [denied_iff, denied_iff]
    simp [ipRejected, headerBlocked, hc]

/-- C18 on the allowlists ["not-an-ip"] and [" , "]: both compile to the empty list, and
a request from 203.0.113.7, an address in no configured range, is handed to the next
handler. -/
theorem C18_invalid_allowlist_fails_open_witness :
    (parseAllowedIPs net4 ["not-an-ip"] false).1 = []
    ∧ (parseAllowedIPs net4 [" , "] false).1 = []
    ∧ allowed ⟨"/test", "203.0.113.7:4711", [("Accept", ["text/html"])]⟩
        (ServeHTTP net4 ⟨[⟨some (Regexp.literal "X-Test"), none⟩], [], [], false⟩
          ⟨"/test", "203.0.113.7:4711", [("Accept", ["text/html"])]⟩) :=
  ⟨(C18_invalid_allowlist_fails_open compileLiteral net4
      ⟨[⟨"X-Test", ""⟩], [], ["not-an-ip"], false⟩ _ none
      ⟨"/test", "203.0.113.7:4711", [("Accept", ["text/html"])]⟩ rfl (by decide)).1,
    (C18_invalid_allowlist_fails_open compileLiteral net4
      ⟨[⟨"X-Test", ""⟩], [], [" , "], false⟩ _ none
      ⟨"/test", "203.0.113.7:4711", [("Accept", ["text/html"])]⟩ rfl (by decide)).1,
    by decide⟩

/-- C19. An empty whitelist rule disables header blocking: for every plugin whose
whitelist rules contain a rule with neither a name pattern nor a value pattern,
`isWhitelisted` is true for every header, so the header step denies no request,
whatever the block rules: a request is denied only by the IP step. Such a rule is what
`prepareRules` makes of a configuration entry {header: "", env: ""}. -/
theorem C19_empty_whitelist_rule_disables_blocking (N : Net) (c : headerBlock)
    (req : Request) (hrule : (⟨none, none⟩ : rule) ∈ c.whitelistRequestRules) :
    (∀ (name : String) (values : List String),
        isWhitelisted name values c.whitelistRequestRules = true)
    ∧ (denied (ServeHTTP N c req) ↔
        (c.allowedIPNets ≠ []
          ∧ ∀ n ∈ c.allowedIPNets, n.Contains (clientIP N req) = false))
    ∧ (c.allowedIPNets = [] → allowed req (ServeHTTP N c req))
    ∧ ∀ (Compile : String → Option Regexp) (headerConfig : List HeaderConfig)
        (rules : List rule), prepareRules Compile headerConfig = Except.ok rules →
        (⟨"", ""⟩ : HeaderConfig) ∈ headerConfig → (⟨none, none⟩ : rule) ∈ rules := by
  have hw : ∀ (name : String) (values : List String),
      isWhitelisted name values c.whitelistRequestRules = true := by
    intro name values
    rw [isWhitelisted_iff_mem]
    exact ⟨⟨none, none⟩, hrule, by simp [isWhitelisted]⟩
  have hb : ¬ headerBlocked c req.Header := by
    rintro ⟨h, -, r, -, -, hnw⟩
    rw [hw] at hnw
    cases hnw
  refine ⟨hw, ?_, ?_, fun Compile hc rules => prepareRules_mem_empty Compile hc rules⟩
  · rw [denied_iff]
    unfold ipRejected
    constructor
    · rintro (h | h)
      · exact h
      · exact absurd h hb
    · exact Or.inl
  · intro hnil
    rw [allowed_iff]
    rintro (⟨hne, -⟩ | h)
    · exact hne hnil
    · exact hb h

/-- C19 on the block rule {name: "X-Test"} with the whitelist made of the single entry
{header: "", env: ""}: the request with X-Test: blocked is handed to the next handler. -/
theorem C19_empty_whitelist_rule_disables_blocking_witness :
    allowed ⟨"/test", "192.0.2.1:1234", [("X-Test", ["blocked"])]⟩
      (ServeHTTP net4 ⟨[⟨some (Regexp.literal "X-Test"), none⟩], [⟨none, none⟩], [], false⟩
        ⟨"/test", "192.0.2.1:1234", [("X-Test", ["blocked"])]⟩)
    ∧ applyRule ⟨some (Regexp.literal "X-Test"), none⟩ "X-Test" ["blocked"] = true :=
  ⟨(C19_empty_whitelist_rule_disables_blocking net4
      ⟨[⟨some (Regexp.literal "X-Test"), none⟩], [⟨none, none⟩], [], false⟩
      ⟨"/test", "192.0.2.1:1234", [("X-Test", ["blocked"])]⟩
      (List.mem_singleton.mpr rfl)).2.2.1 rfl,
    by decide⟩

/-- C20. Whitelisting is per header, not per value: when one value of a header matches
the value pattern of a whitelist rule whose name pattern is absent or matches the name,
the header is whitelisted, and a request with no allowlist carrying only that header is
allowed, whatever the block rules, so also when another value of the same header is the
one that matched a block rule. -/
theorem C20_whitelist_is_per_header (N : Net) (log : Bool) (rules whitelist : List rule)
    (r : rule) (valueRe : Regexp) (url remoteAddr name : String) (values : List String)
    (v : String)
    (hr : r ∈ whitelist) (hvalue : r.value = some valueRe)
    (hname : r.name = none ∨ ∃ nameRe, r.name = some nameRe ∧ nameRe.MatchString name = true)
    (hv : v ∈ values) (hmatch : valueRe.MatchString v = true) :
    isWhitelisted name values whitelist = true
    ∧ allowed ⟨url, remoteAddr, [(name, values)]⟩
        (ServeHTTP N ⟨rules, whitelist, [], log⟩ ⟨url, remoteAddr, [(name, values)]⟩) := by
  have hany : matchesAnyValue valueRe values = true :=
    (matchesAnyValue_iff valueRe values).mpr ⟨v, hv, hmatch⟩
  have hw : isWhitelisted name values whitelist = true := by
    rw [isWhitelisted_iff_mem]
    refine ⟨r, hr, ?_⟩
    obtain ⟨rn, rv⟩ := r
    simp only at hvalue hname
    subst hvalue
    rcases hname with hn | ⟨nameRe, hn, hnm⟩
    · subst hn
      simp [isWhitelisted, hany]
    · subst hn
      simp [isWhitelisted, hnm, hany]
  refine ⟨hw, ?_⟩
  rw [allowed_iff]
  rintro (⟨hne, -⟩ | ⟨h, hmem, rr, -, -, hnw⟩)
  · exact hne rfl
  · rcases List.mem_singleton.mp hmem with rfl
    rw [hw] at hnw
    cases hnw

/-- C20 on the block rule {value: "evil"} and the whitelist rule {value: "good"}: the
header X-A with the two values "evil" and "good" matches the block rule through "evil",
which the whitelist pattern does not match, and the request is allowed all the same. -/
theorem C20_whitelist_is_per_header_witness :
    (isWhitelisted "X-A" ["evil", "good"] [⟨none, some (Regexp.literal "good")⟩] = true
      ∧ allowed ⟨"/test", "192.0.2.1:1234", [("X-A", ["evil", "good"])]⟩
        (ServeHTTP net4
          ⟨[⟨none, some (Regexp.literal "evil")⟩], [⟨none, some (Regexp.literal "good")⟩],
            [], false⟩
          ⟨"/test", "192.0.2.1:1234", [("X-A", ["evil", "good"])]⟩))
    ∧ applyRule ⟨none, some (Regexp.literal "evil")⟩ "X-A" ["evil", "good"] = true
    ∧ (Regexp.literal "good").MatchString "evil" = false :=
  ⟨C20_whitelist_is_per_header net4 false [⟨none, some (Regexp.literal "evil")⟩]
      [⟨none, some (Regexp.literal "good")⟩] ⟨none, some (Regexp.literal "good")⟩
      (Regexp.literal "good") "/test" "192.0.2.1:1234" "X-A" ["evil", "good"] "good"
      (List.mem_singleton.mpr rfl) rfl (Or.inl rfl)
      (List.mem_cons_of_mem _ (List.mem_singleton.mpr rfl)) (by decide),
    by decide, by decide⟩

end headerblock
